import Mathlib

/-!
Verification development for the yaml-path expression engine
(`src/yaml-path/yaml-path.cpp`).  The scanner, selector parser and
resolver are embedded shallowly: the C++ `PathScanner` object becomes an
explicit state record threaded through pure functions, `size_t`
arithmetic is `Nat` arithmetic reduced `% 2 ^ 64`, and the yaml-cpp
`Node` handle becomes an inductive tree value.  Function and field names
follow the source.
-/

namespace YamlPath

/-! ## Character classes (ASCII, per `isascii`/`isspace`/`ispunct` in the C locale) -/

def isasciiC (c : Char) : Bool := c.toNat ≤ 127

def isspaceC (c : Char) : Bool :=
  c.toNat == 32 || (9 ≤ c.toNat && c.toNat ≤ 13)

def ispunctC (c : Char) : Bool :=
  (33 ≤ c.toNat && c.toNat ≤ 47) || (58 ≤ c.toNat && c.toNat ≤ 64) ||
  (91 ≤ c.toNat && c.toNat ≤ 96) || (123 ≤ c.toNat && c.toNat ≤ 126)

/-- Whitespace as skipped by `PathScanner::SkipWS`: ASCII whitespace only. -/
def wsC (c : Char) : Bool := isasciiC c && isspaceC c

/-- Characters forming an unquoted token
(`!isascii(c) || !(isspace(c) || ispunct(c))` from `NextToken`). -/
def identC (c : Char) : Bool := !isasciiC c || !(isspaceC c || ispunctC c)

def isDigitC (c : Char) : Bool := 48 ≤ c.toNat && c.toNat ≤ 57

/-- The single-quote character (written numerically). -/
def squote : Char := Char.ofNat 39

/-- The double-quote character (written numerically). -/
def dquote : Char := Char.ofNat 34

/-! ## Token / selector / error enums (`yaml-path-internals.h`, `yaml-path.h`) -/

inductive EToken where
  | invalid
  | none
  | quotedIdentifier
  | unquotedIdentifier
  | openBracket
  | closeBracket
  | period
  | equal
deriving DecidableEq, Repr

structure TokenData where
  id : EToken
  value : List Char
deriving DecidableEq, Repr

inductive ESelector where
  | invalid
  | none
  | key
  | index
  | seqMapFilter
deriving DecidableEq, Repr

inductive EPathError where
  | none
  | internal
  | invalidToken
  | invalidIndex
  | unexpectedEnd
  | invalidNodeType
  | nodeNotFound
deriving DecidableEq, Repr

structure PathException where
  error : EPathError
  offset : Nat
  value : List Char
deriving DecidableEq, Repr

inductive SelectorData where
  | argNull
  | argKey (key : List Char)
  | argIndex (index : Nat)
  | argSeqMapFilter (key : List Char) (value : Option (List Char))
deriving DecidableEq, Repr

/-! ## Scanner state (`PathScanner` member variables) -/

structure PathScanner where
  rpath : List Char
  all : List Char
  curToken : TokenData
  selector : ESelector
  selectorData : SelectorData
  tokenPending : Bool
  periodAllowed : Bool
  selectorRequired : Bool
  curException : Option PathException
  leftOffset : Nat
deriving DecidableEq, Repr

/-- `ScanOffset() = m_all.length() - m_rpath.length()`. -/
def ScanOffset (s : PathScanner) : Nat := s.all.length - s.rpath.length

/-- `SkipWS`: drop leading ASCII whitespace from the remaining path. -/
def SkipWS (s : PathScanner) : PathScanner :=
  { s with rpath := s.rpath.dropWhile wsC }

/-- `SetToken`: record the current token, then skip following whitespace. -/
def SetToken (s : PathScanner) (id : EToken) (v : List Char) : PathScanner :=
  SkipWS { s with curToken := ⟨id, v⟩ }

/-- `SetSelector`. -/
def SetSelector (s : PathScanner) (sel : ESelector) (d : SelectorData) : PathScanner :=
  { s with selector := sel, selectorData := d }

/-- `SetError`: record a sticky exception carrying the scan offset and the
current token text, invalidate the token and the selector. -/
def SetError (s : PathScanner) (e : EPathError) : PathScanner :=
  SetSelector
    { s with
      curException := some ⟨e, ScanOffset s, s.curToken.value⟩
      curToken := ⟨.invalid, []⟩ }
    .invalid .argNull

/-- `GetSingleCharToken` with the table used by `NextToken`. -/
def singleCharToken (c : Char) : EToken :=
  if c = '.' then .period
  else if c = '[' then .openBracket
  else if c = ']' then .closeBracket
  else if c = '=' then .equal
  else .none

/-- `PathScanner::NextToken`. -/
def NextToken (s : PathScanner) : PathScanner :=
  match s.rpath with
  | [] => SetToken s .none []
  | head :: tail =>
    if s.curException.isSome then s
    else
      let t := singleCharToken head
      if t ≠ EToken.none then
        SetToken { s with rpath := tail } t [head]
      else if head = squote || head = dquote then
        match tail.findIdx? (· = head) with
        | Option.none => SetToken s .invalid []
        | some i => SetToken { s with rpath := tail.drop (i + 1) } .quotedIdentifier (tail.take i)
      else
        let tok := s.rpath.takeWhile identC
        if tok.isEmpty then SetError s .invalidToken
        else SetToken { s with rpath := s.rpath.dropWhile identC } .unquotedIdentifier tok

/-- `size_t` on the (64-bit) platform: values live modulo `2 ^ 64`. -/
def sizeTMod : Nat := 2 ^ 64

/-- Outcome of the digit loop inside `PathScanner::AsIndex`. -/
inductive IndexScan where
  | notIndex
  | overflowed
  | value (v : Nat)
deriving DecidableEq, Repr

/-- The accumulation loop of `AsIndex`: `value = value * 10 + (c - '0')`
in `size_t` arithmetic, flagging overflow via the `value < prev` test. -/
def asIndexGo : List Char → Nat → IndexScan
  | [], acc => .value acc
  | c :: cs, acc =>
    if c.toNat < 48 || 57 < c.toNat then .notIndex
    else
      let v := (acc * 10 + (c.toNat - 48)) % sizeTMod
      if v < acc then .overflowed else asIndexGo cs v

/-- `PathScanner::AsIndex`. -/
def AsIndex (s : PathScanner) : Option Nat × PathScanner :=
  if s.curToken.id ≠ EToken.unquotedIdentifier then (Option.none, s)
  else
    match asIndexGo s.curToken.value 0 with
    | .notIndex => (Option.none, s)
    | .overflowed => (Option.none, SetError s .invalidIndex)
    | .value v => (some v, s)

/-- `PathScanner::NextSelectorToken`: fetch (or reuse the pushed-back)
token and check it against the valid-token set, raising `err` otherwise.
`BitsContain` becomes list membership; `EToken.invalid` is in no set. -/
def NextSelectorToken (s : PathScanner) (valid : List EToken) (err : EPathError) :
    Bool × PathScanner :=
  let s1 := if !s.tokenPending then NextToken s else s
  let s2 := { s1 with tokenPending := false }
  if s2.curToken.id ∈ valid then (true, s2)
  else (false, SetError s2 err)

def ValidTokensAtStart : List EToken :=
  [.none, .openBracket, .quotedIdentifier, .unquotedIdentifier]

def ValidTokensAtBase : List EToken := ValidTokensAtStart ++ [.period]

/-- The `QuotedIdentifier`/`UnquotedIdentifier` case of `NextSelector`. -/
def selKeyCase (s : PathScanner) : ESelector × PathScanner :=
  let s1 := SetSelector s .key (.argKey s.curToken.value)
  let s2 := { s1 with leftOffset := ScanOffset s1, periodAllowed := true }
  (.key, s2)

/-- Producing the `SeqMapFilter` selector at the end of the bracket
sub-grammar of `NextSelector`. -/
def selFilterFinish (s : PathScanner) (k : List Char) (v : Option (List Char)) :
    ESelector × PathScanner :=
  let s1 := { s with periodAllowed := true, leftOffset := ScanOffset s }
  (.seqMapFilter, SetSelector s1 .seqMapFilter (.argSeqMapFilter k v))

/-- The `OpenBracket` case of `NextSelector` (index or filter). -/
def selBracketCase (s : PathScanner) : ESelector × PathScanner :=
  match NextSelectorToken s [.unquotedIdentifier, .quotedIdentifier] .invalidIndex with
  | (false, s1) => (.invalid, s1)
  | (true, s1) =>
    match AsIndex s1 with
    | (some i, s2) =>
      match NextSelectorToken s2 [.closeBracket] .invalidToken with
      | (false, s3) => (.invalid, s3)
      | (true, s3) =>
        let s4 := { s3 with periodAllowed := true, leftOffset := ScanOffset s3 }
        (.index, SetSelector s4 .index (.argIndex i))
    | (Option.none, s2) =>
      if s2.curException.isSome then (.invalid, s2)
      else
        let tokKey := s2.curToken.value
        match NextSelectorToken s2 [.equal] .invalidToken with
        | (false, s3) => (.invalid, s3)
        | (true, s3) =>
          match NextSelectorToken s3 [.quotedIdentifier, .unquotedIdentifier, .closeBracket] .invalidToken with
          | (false, s4) => (.invalid, s4)
          | (true, s4) =>
            if s4.curToken.id ≠ EToken.closeBracket then
              let tokValue := s4.curToken.value
              match NextSelectorToken s4 [.closeBracket] .invalidToken with
              | (false, s5) => (.invalid, s5)
              | (true, s5) => selFilterFinish s5 tokKey (some tokValue)
            else selFilterFinish s4 tokKey Option.none

/-- Token analysis of `NextSelector` after the period handling: fetch the
selector's leading token (start set) and dispatch on its kind. -/
def selDispatch (sA : PathScanner) : ESelector × PathScanner :=
  match NextSelectorToken sA ValidTokensAtStart .invalidToken with
  | (false, sB) => (.invalid, sB)
  | (true, sB) =>
    match sB.curToken.id with
    | .none =>
      if sB.selectorRequired then (.invalid, SetError sB .unexpectedEnd)
      else (.none, sB)
    | .quotedIdentifier => selKeyCase sB
    | .unquotedIdentifier => selKeyCase sB
    | .openBracket => selBracketCase sB
    | _ => (.invalid, sB)

/-- `PathScanner::NextSelector`. -/
def NextSelector (s0 : PathScanner) : ESelector × PathScanner :=
  if s0.curException.isSome then (.invalid, s0)
  else
    let step2 : Bool × PathScanner :=
      if s0.periodAllowed then
        match NextSelectorToken s0 ValidTokensAtBase .invalidToken with
        | (false, s1) => (false, s1)
        | (true, s1) =>
          let s2 := { s1 with periodAllowed := false }
          if s2.curToken.id = EToken.period then (true, { s2 with selectorRequired := true })
          else (true, { s2 with tokenPending := true })
      else (true, s0)
    match step2 with
    | (false, s) => (.invalid, s)
    | (true, sA) => selDispatch sA

/-- The `PathScanner` constructor: remember the whole path, skip leading
whitespace; all flags start clear. -/
def initScanner (p : List Char) : PathScanner :=
  SkipWS
    { rpath := p, all := p, curToken := ⟨.none, []⟩, selector := .none
      selectorData := .argNull, tokenPending := false, periodAllowed := false
      selectorRequired := false, curException := Option.none, leftOffset := 0 }

/-- `PathScanner::operator bool`. -/
def scanBool (s : PathScanner) : Bool :=
  !s.rpath.isEmpty && s.curToken.id != EToken.invalid && s.curException.isNone

/-- The `while (scan) scan.NextSelector();` loop of `PathValidate`,
with fuel (each iteration either consumes input or ends the loop). -/
def pathValidateLoop : Nat → PathScanner → PathScanner
  | 0, s => s
  | n + 1, s => if scanBool s then pathValidateLoop n (NextSelector s).2 else s

/-- Final scanner state of `PathValidate`. -/
def pathValidateRun (p : List Char) : PathScanner :=
  pathValidateLoop (p.length + 1) (initScanner p)

/-- `PathValidate`: the error of the recorded exception, or `None`. -/
def PathValidate (p : List Char) : EPathError :=
  match (pathValidateRun p).curException with
  | some ex => ex.error
  | Option.none => .none

/-! ## The document tree (yaml-cpp `Node` as consumed by the resolver) -/

/-- A yaml-cpp node handle: undefined ("zombie", `operator bool` false),
null, scalar, sequence or map.  Map keys are scalar strings, looked up in
order. -/
inductive Node where
  | undefined
  | null
  | scalar (s : List Char)
  | seq (items : List Node)
  | map (entries : List (List Char × Node))

instance : Inhabited Node := ⟨.undefined⟩

instance : Nonempty Node := ⟨.undefined⟩

def Node.isDefined : Node → Bool
  | .undefined => false
  | _ => true

def Node.isNull : Node → Bool
  | .null => true
  | _ => false

def Node.isScalar : Node → Bool
  | .scalar _ => true
  | _ => false

def Node.isSequence : Node → Bool
  | .seq _ => true
  | _ => false

def Node.isMap : Node → Bool
  | .map _ => true
  | _ => false

def Node.size : Node → Nat
  | .seq l => l.length
  | .map l => l.length
  | _ => 0

/-- `node.as<std::string>()` for a scalar node (only used under an
`IsScalar` guard). -/
def Node.asString : Node → List Char
  | .scalar s => s
  | _ => []

/-- yaml-cpp map lookup `node[key]`: the first entry with that key, or an
undefined node when absent. -/
def lookupEntries : List (List Char × Node) → List Char → Node
  | [], _ => .undefined
  | (k, v) :: rest, key => if k = key then v else lookupEntries rest key

/-- Anonymous-namespace `IsMatch`. -/
def IsMatch (node : Node) : Bool :=
  !(!node.isDefined || node.isNull ||
    (node.isSequence && node.size == 0) || (node.isMap && node.size == 0))

/-- The collection loop of `SeqMapByKey` over a sequence: for each
element that is a map, look the key up and keep the defined results. -/
def seqCollect (items : List Node) (key : List Char) : List Node :=
  items.filterMap fun el =>
    match el with
    | .map entries =>
      let value := lookupEntries entries key
      if value.isDefined then some value else Option.none
    | _ => Option.none

/-- Anonymous-namespace `SeqMapByKey`.  The C++ mutates `node` in place on
success only; here the pair carries the error and the (possibly new)
node, the input node being returned unchanged on error. -/
def SeqMapByKey (node : Node) (key : List Char) : EPathError × Node :=
  match node with
  | .seq items =>
    let collected := seqCollect items key
    let newNode : Node := if collected.isEmpty then .null else .seq collected
    if !IsMatch newNode then (.nodeNotFound, node) else (.none, newNode)
  | .map entries =>
    let newNode := lookupEntries entries key
    if !IsMatch newNode then (.nodeNotFound, node) else (.none, newNode)
  | _ => (.invalidNodeType, node)

/-- Anonymous-namespace `prelim_node_eq`. -/
def prelim_node_eq (n : Node) (p : List Char) : Bool :=
  n.isScalar && n.asString == p

/-- Anonymous-namespace `SeqMapFilterMatchElement`. -/
def SeqMapFilterMatchElement (el : Node) (key : List Char) (value : Option (List Char)) : Bool :=
  match el with
  | .map entries =>
    let v := lookupEntries entries key
    if !v.isDefined || !v.isScalar then false
    else
      match value with
      | Option.none => true
      | some pv => prelim_node_eq v pv
  | _ => false

/-- Anonymous-namespace `SeqMapFilter` (same in-place-mutation convention
as `SeqMapByKey`). -/
def SeqMapFilter (node : Node) (key : List Char) (value : Option (List Char)) :
    EPathError × Node :=
  match node with
  | .seq items =>
    let kept := items.filter fun el => SeqMapFilterMatchElement el key value
    let newNode : Node := if kept.isEmpty then .null else .seq kept
    if !IsMatch newNode then (.nodeNotFound, node) else (.none, newNode)
  | .map _ =>
    let newNode : Node :=
      if SeqMapFilterMatchElement node key value then node else .null
    if !IsMatch newNode then (.nodeNotFound, node) else (.none, newNode)
  | _ => (.invalidNodeType, node)

/-- Sequence element access `node[index]` (guarded by `index < size`). -/
def Node.seqGet : Node → Nat → Node
  | .seq items, i => items.getD i .undefined
  | _, _ => .undefined

/-- The `ESelector::Index` case of the `PathResolve` loop
(`yaml-path.cpp` lines 503–521). -/
def resolveIndexStep (node : Node) (index : Nat) : EPathError × Node :=
  if node.isScalar then
    if index ≠ 0 then (.nodeNotFound, node) else (.none, node)
  else if node.isSequence then
    if index ≥ node.size then (.nodeNotFound, node)
    else (.none, node.seqGet index)
  else (.invalidNodeType, node)

/-- `scan.SelectorData<ArgKey>().key` (the selector always carries the
matching alternative when dispatched). -/
def argKeyOf : SelectorData → List Char
  | .argKey k => k
  | _ => []

/-- `scan.SelectorData<ArgIndex>().index`. -/
def argIndexOf : SelectorData → Nat
  | .argIndex i => i
  | _ => 0

/-- `scan.SelectorData<ArgSeqMapFilter>()`. -/
def argFilterOf : SelectorData → List Char × Option (List Char)
  | .argSeqMapFilter k v => (k, v)
  | _ => ([], Option.none)

/-- The `while (scan)` loop of `PathResolve`: `pathVar` is the caller's
`path` reference, assigned `scan.Right()` at the top of each iteration
and after the loop.  Syntax errors leave the loop through the `while`
condition, returning `EPathError::None`. -/
def pathResolveLoop : Nat → PathScanner → Node → List Char → EPathError × Node × List Char
  | 0, s, node, _ => (.internal, node, s.rpath)
  | n + 1, s, node, pathVar =>
    if scanBool s then
      if !node.isDefined then (.nodeNotFound, node, pathVar)
      else
        let pathVar2 := s.rpath
        match NextSelector s with
        | (.key, s2) =>
          match SeqMapByKey node (argKeyOf s2.selectorData) with
          | (.none, node2) => pathResolveLoop n s2 node2 pathVar2
          | (e, node2) => (e, node2, pathVar2)
        | (.index, s2) =>
          match resolveIndexStep node (argIndexOf s2.selectorData) with
          | (.none, node2) => pathResolveLoop n s2 node2 pathVar2
          | (e, node2) => (e, node2, pathVar2)
        | (.seqMapFilter, s2) =>
          match SeqMapFilter node (argFilterOf s2.selectorData).1
              (argFilterOf s2.selectorData).2 with
          | (.none, node2) => pathResolveLoop n s2 node2 pathVar2
          | (e, node2) => (e, node2, pathVar2)
        | (_, s2) => pathResolveLoop n s2 node pathVar2
    else (.none, node, s.rpath)

/-- `PathResolve(node, path)`: returns the error, the narrowed node and
the final value of the caller's `path` reference. -/
def PathResolve (node : Node) (p : List Char) : EPathError × Node × List Char :=
  pathResolveLoop (p.length + 1) (initScanner p) node p

/-- `Select`: undefined node when any unresolved path remains. -/
def Select (node : Node) (p : List Char) : Node :=
  match PathResolve node p with
  | (_, n, rest) => if rest.length ≠ 0 then .undefined else n

/-! ## Auxiliary notions used to state the claims -/

/-- Exact (unbounded) decimal value of a digit string. -/
def digitsVal (ds : List Char) : Nat :=
  ds.foldl (fun a c => a * 10 + (c.toNat - 48)) 0

/-- Decimal accumulation starting from `acc` (exact, no wrap-around). -/
def digitsValFrom (acc : Nat) (ds : List Char) : Nat :=
  ds.foldl (fun a c => a * 10 + (c.toNat - 48)) acc

/-- A well-formed unquoted identifier: nonempty, all token characters. -/
def goodKey (k : List Char) : Bool := !k.isEmpty && k.all identC

def goodKeys (ks : List (List Char)) : Bool := ks.all goodKey

/-- Manual keyed lookup on a node (undefined unless a map with the key). -/
def lookupKey (n : Node) (k : List Char) : Node :=
  match n with
  | .map entries => lookupEntries entries k
  | _ => .undefined

/-- Manual sequential key lookups. -/
def chainNode (n : Node) (ks : List (List Char)) : Node :=
  ks.foldl lookupKey n

/-- The tree is map-shaped along the whole chain and every lookup lands
on a matching (defined, non-null, nonempty) node. -/
def chainOK : Node → List (List Char) → Bool
  | _, [] => true
  | n, k :: ks => n.isMap && IsMatch (lookupKey n k) && chainOK (lookupKey n k) ks

/-- The tail of a dotted-keys path: each remaining key preceded by `.`. -/
def dottedTail : List (List Char) → List Char
  | [] => []
  | k :: ks => '.' :: (k ++ dottedTail ks)

/-- A pure dotted-keys path: keys joined by `.`. -/
def dotted : List (List Char) → List Char
  | [] => []
  | k :: ks => k ++ dottedTail ks

/-- One resolution step, as dispatched by the `PathResolve` loop. -/
inductive SelStep where
  | key (k : List Char)
  | index (i : Nat)
  | filter (k : List Char) (v : Option (List Char))

def applyStep (n : Node) : SelStep → EPathError × Node
  | .key k => SeqMapByKey n k
  | .index i => resolveIndexStep n i
  | .filter k v => SeqMapFilter n k v

/-- Apply a list of steps, requiring every one of them to succeed. -/
def applySteps : Node → List SelStep → Option Node
  | n, [] => some n
  | n, st :: rest =>
    match applyStep n st with
    | (.none, n2) => applySteps n2 rest
    | _ => Option.none

/-! ## Infrastructure lemmas: character classes and token scanning -/

/-- Head of the list (if any) fails the predicate. -/
def headNot (p : Char → Bool) : List Char → Prop
  | [] => True
  | c :: _ => p c = false

theorem identC_not_ws {c : Char} (h : identC c = true) : wsC c = false := by
  cases ha : isasciiC c <;> cases hs : isspaceC c <;> cases hp : ispunctC c <;>
    simp_all [identC, wsC]

theorem identC_single {c : Char} (h : identC c = true) :
    singleCharToken c = EToken.none := by
  unfold singleCharToken
  split
  · rename_i hc; subst hc; exact absurd h (by decide)
  split
  · rename_i hc; subst hc; exact absurd h (by decide)
  split
  · rename_i hc; subst hc; exact absurd h (by decide)
  split
  · rename_i hc; subst hc; exact absurd h (by decide)
  rfl

theorem identC_not_quote {c : Char} (h : identC c = true) :
    (c = squote || c = dquote) = false := by
  by_cases h1 : c = squote
  · subst h1; exact absurd h (by decide)
  by_cases h2 : c = dquote
  · subst h2; exact absurd h (by decide)
  simp [h1, h2]

theorem isDigitC_identC {c : Char} (h : isDigitC c = true) : identC c = true := by
  simp only [isDigitC, Bool.and_eq_true, decide_eq_true_eq] at h
  have hs : isspaceC c = false := by
    simp only [isspaceC, Bool.or_eq_false_iff, Bool.and_eq_false_iff,
      decide_eq_false_iff_not, beq_eq_false_iff_ne, ne_eq]
    omega
  have hp : ispunctC c = false := by
    simp only [ispunctC, Bool.or_eq_false_iff, Bool.and_eq_false_iff,
      decide_eq_false_iff_not]
    omega
  simp [identC, hs, hp]

theorem dropWhile_headNot (p : Char → Bool) (l : List Char) (h : headNot p l) :
    l.dropWhile p = l := by
  cases l with
  | nil => rfl
  | cons c r => exact List.dropWhile_cons_of_neg (by simp [headNot] at h; simp [h])

theorem takeWhile_append_all (p : Char → Bool) (k rest : List Char)
    (hk : k.all p = true) (h : headNot p rest) : (k ++ rest).takeWhile p = k := by
  induction k with
  | nil =>
    simp only [List.nil_append]
    cases rest with
    | nil => rfl
    | cons c r => exact List.takeWhile_cons_of_neg (by simp [headNot] at h; simp [h])
  | cons a k ih =>
    simp only [List.all_cons, Bool.and_eq_true] at hk
    simp only [List.cons_append]
    rw [List.takeWhile_cons_of_pos hk.1, ih hk.2]

theorem dropWhile_append_all (p : Char → Bool) (k rest : List Char)
    (hk : k.all p = true) (h : headNot p rest) : (k ++ rest).dropWhile p = rest := by
  induction k with
  | nil =>
    simp only [List.nil_append]
    exact dropWhile_headNot p rest h
  | cons a k ih =>
    simp only [List.all_cons, Bool.and_eq_true] at hk
    simp only [List.cons_append]
    rw [List.dropWhile_cons_of_pos hk.1, ih hk.2]

theorem goodKey_headNot_ws {k : List Char} (hk : goodKey k = true) (rest : List Char) :
    headNot wsC (k ++ rest) := by
  cases k with
  | nil => simp [goodKey] at hk
  | cons a k =>
    simp only [goodKey, List.all_cons, Bool.and_eq_true] at hk
    simpa [headNot] using identC_not_ws hk.2.1

/-! Symbolic execution of `NextToken`, over explicit scanner states
`⟨rpath, all, curToken, selector, selectorData, tokenPending,
periodAllowed, selectorRequired, curException, leftOffset⟩`. -/

theorem NextToken_ident (al : List Char) (ct : TokenData) (sel : ESelector)
    (sd : SelectorData) (tp pa sr : Bool) (lo : Nat) (k rest : List Char)
    (hk : goodKey k = true) (hbi : headNot identC rest) (hbw : headNot wsC rest) :
    NextToken ⟨k ++ rest, al, ct, sel, sd, tp, pa, sr, Option.none, lo⟩ =
      ⟨rest, al, ⟨.unquotedIdentifier, k⟩, sel, sd, tp, pa, sr, Option.none, lo⟩ := by
  cases k with
  | nil => simp [goodKey] at hk
  | cons a k =>
    simp only [goodKey, List.isEmpty_cons, Bool.not_false, List.all_cons, Bool.true_and,
      Bool.and_eq_true] at hk
    have ha := hk.1
    have htw : ((a :: k) ++ rest).takeWhile identC = a :: k :=
      takeWhile_append_all identC (a :: k) rest (by simp [ha, hk.2]) hbi
    have hdw : ((a :: k) ++ rest).dropWhile identC = rest :=
      dropWhile_append_all identC (a :: k) rest (by simp [ha, hk.2]) hbi
    simp only [NextToken, List.cons_append, Option.isSome_none, Bool.false_eq_true,
      if_false, identC_single ha, ne_eq, not_true_eq_false, identC_not_quote ha,
      ite_false, if_false]
    simp only [← List.cons_append, htw, hdw, List.isEmpty_cons, Bool.false_eq_true,
      if_false, SetToken, SkipWS, dropWhile_headNot wsC rest hbw]

theorem NextToken_single (al : List Char) (ct : TokenData) (sel : ESelector)
    (sd : SelectorData) (tp pa sr : Bool) (lo : Nat) (c : Char) (rest : List Char)
    (t : EToken) (ht : singleCharToken c = t) (hne : t ≠ EToken.none)
    (hbw : headNot wsC rest) :
    NextToken ⟨c :: rest, al, ct, sel, sd, tp, pa, sr, Option.none, lo⟩ =
      ⟨rest, al, ⟨t, [c]⟩, sel, sd, tp, pa, sr, Option.none, lo⟩ := by
  simp only [NextToken, Option.isSome_none, Bool.false_eq_true, if_false, ht, ne_eq,
    hne, not_false_eq_true, if_true, SetToken, SkipWS, dropWhile_headNot wsC rest hbw]

theorem NextToken_empty (al : List Char) (ct : TokenData) (sel : ESelector)
    (sd : SelectorData) (tp pa sr : Bool) (lo : Nat) (e : Option PathException) :
    NextToken ⟨[], al, ct, sel, sd, tp, pa, sr, e, lo⟩ =
      ⟨[], al, ⟨.none, []⟩, sel, sd, tp, pa, sr, e, lo⟩ := by
  simp [NextToken, SetToken, SkipWS]

theorem NextToken_quoteFail (al : List Char) (ct : TokenData) (sel : ESelector)
    (sd : SelectorData) (tp pa sr : Bool) (lo : Nat) (q : Char) (r : List Char)
    (hq : (q = squote || q = dquote) = true) (hfind : r.findIdx? (· = q) = Option.none) :
    NextToken ⟨q :: r, al, ct, sel, sd, tp, pa, sr, Option.none, lo⟩ =
      ⟨q :: r, al, ⟨.invalid, []⟩, sel, sd, tp, pa, sr, Option.none, lo⟩ := by
  have hsingle : singleCharToken q = EToken.none := by
    rcases Bool.or_eq_true_iff.mp hq with h | h <;>
      · rw [of_decide_eq_true h]; rfl
  have hwq : wsC q = false := by
    rcases Bool.or_eq_true_iff.mp hq with h | h <;>
      · rw [of_decide_eq_true h]; rfl
  simp only [NextToken, Option.isSome_none, Bool.false_eq_true, if_false, hsingle,
    ne_eq, not_true_eq_false, if_false, hq, if_true, hfind, SetToken, SkipWS,
    List.dropWhile, hwq]

/-! Digit accumulation (`AsIndex`). -/

theorem digitsValFrom_le (acc : Nat) (ds : List Char) : acc ≤ digitsValFrom acc ds := by
  induction ds generalizing acc with
  | nil => exact Nat.le_refl acc
  | cons c cs ih =>
    have h := ih (acc * 10 + (c.toNat - 48))
    simp only [digitsValFrom, List.foldl] at h ⊢
    omega

theorem digitsValFrom_cons (acc : Nat) (c : Char) (cs : List Char) :
    digitsValFrom acc (c :: cs) = digitsValFrom (acc * 10 + (c.toNat - 48)) cs := rfl

theorem asIndexGo_value (ds : List Char) (acc : Nat) (hd : ds.all isDigitC = true)
    (hb : digitsValFrom acc ds < sizeTMod) :
    asIndexGo ds acc = .value (digitsValFrom acc ds) := by
  induction ds generalizing acc with
  | nil => rfl
  | cons c cs ih =>
    simp only [List.all_cons, Bool.and_eq_true] at hd
    have hdig : (48 ≤ c.toNat ∧ c.toNat ≤ 57) := by
      have := hd.1; simp only [isDigitC, Bool.and_eq_true, decide_eq_true_eq] at this
      exact this
    have hnext : digitsValFrom acc (c :: cs) = digitsValFrom (acc * 10 + (c.toNat - 48)) cs :=
      rfl
    have hsmall : acc * 10 + (c.toNat - 48) < sizeTMod := by
      have := digitsValFrom_le (acc * 10 + (c.toNat - 48)) cs
      rw [hnext] at hb; omega
    simp only [asIndexGo, Bool.or_eq_true, decide_eq_true_eq]
    rw [if_neg (by omega)]
    have hmod : (acc * 10 + (c.toNat - 48)) % sizeTMod = acc * 10 + (c.toNat - 48) :=
      Nat.mod_eq_of_lt hsmall
    rw [hmod, if_neg (by omega), hnext]
    exact ih _ hd.2 (by rw [hnext] at hb; exact hb)

theorem asIndexGo_notIndex (ds : List Char) (acc : Nat)
    (hnd : ds.dropWhile isDigitC ≠ [])
    (hb : digitsValFrom acc (ds.takeWhile isDigitC) < sizeTMod) :
    asIndexGo ds acc = .notIndex := by
  induction ds generalizing acc with
  | nil => simp at hnd
  | cons c cs ih =>
    by_cases hc : isDigitC c = true
    · have hdig : (48 ≤ c.toNat ∧ c.toNat ≤ 57) := by
        simp only [isDigitC, Bool.and_eq_true, decide_eq_true_eq] at hc; exact hc
      rw [List.takeWhile_cons_of_pos hc, digitsValFrom_cons] at hb
      rw [List.dropWhile_cons_of_pos hc] at hnd
      have hsmall : acc * 10 + (c.toNat - 48) < sizeTMod := by
        have := digitsValFrom_le (acc * 10 + (c.toNat - 48)) (cs.takeWhile isDigitC)
        omega
      simp only [asIndexGo, Bool.or_eq_true, decide_eq_true_eq]
      rw [if_neg (by omega), Nat.mod_eq_of_lt hsmall, if_neg (by omega)]
      exact ih _ hnd hb
    · have hno : (48 ≤ c.toNat ∧ c.toNat ≤ 57) → False := by
        intro h
        exact hc (by simp only [isDigitC, Bool.and_eq_true, decide_eq_true_eq]; exact h)
      have hrange : c.toNat < 48 ∨ 57 < c.toNat := by
        by_contra hcon
        push_neg at hcon
        exact hno ⟨by omega, by omega⟩
      simp only [asIndexGo, Bool.or_eq_true, decide_eq_true_eq]
      rw [if_pos hrange]

theorem takeWhile_length_lt (p : Char → Bool) (k : List Char) (n : Nat)
    (h : ∃ c ∈ k.take n, p c = false) : (k.takeWhile p).length < n := by
  induction k generalizing n with
  | nil => simp at h
  | cons a k ih =>
    cases n with
    | zero => simp at h
    | succ n =>
      by_cases ha : p a = true
      · rw [List.takeWhile_cons_of_pos ha]
        obtain ⟨c, hmem, hc⟩ := h
        simp only [List.take_succ_cons, List.mem_cons] at hmem
        rcases hmem with rfl | hmem
        · rw [ha] at hc; cases hc
        · have := ih n ⟨c, hmem, hc⟩
          simpa using Nat.succ_lt_succ this
      · rw [List.takeWhile_cons_of_neg (by simpa using ha)]
        simp

theorem digitsValFrom_bound (ds : List Char) (acc : Nat) (hd : ds.all isDigitC = true) :
    digitsValFrom acc ds < (acc + 1) * 10 ^ ds.length := by
  induction ds generalizing acc with
  | nil => simp [digitsValFrom]
  | cons c cs ih =>
    simp only [List.all_cons, Bool.and_eq_true] at hd
    have hdig : c.toNat ≤ 57 := by
      have := hd.1; simp only [isDigitC, Bool.and_eq_true, decide_eq_true_eq] at this
      exact this.2
    rw [digitsValFrom_cons]
    have h1 := ih (acc * 10 + (c.toNat - 48)) hd.2
    have h2 : (acc * 10 + (c.toNat - 48) + 1) ≤ (acc + 1) * 10 := by omega
    calc digitsValFrom (acc * 10 + (c.toNat - 48)) cs
        < (acc * 10 + (c.toNat - 48) + 1) * 10 ^ cs.length := h1
      _ ≤ (acc + 1) * 10 * 10 ^ cs.length := Nat.mul_le_mul_right _ h2
      _ = (acc + 1) * 10 ^ (c :: cs).length := by
          rw [List.length_cons, Nat.mul_assoc, ← Nat.pow_succ']

/-! Symbolic execution of `NextSelector`. -/

theorem NextSelector_key_start (al : List Char) (ct : TokenData) (sel : ESelector)
    (sd : SelectorData) (sr : Bool) (lo : Nat) (k rest : List Char)
    (hk : goodKey k = true) (hbi : headNot identC rest) (hbw : headNot wsC rest) :
    NextSelector ⟨k ++ rest, al, ct, sel, sd, false, false, sr, Option.none, lo⟩ =
      (.key, ⟨rest, al, ⟨.unquotedIdentifier, k⟩, .key, .argKey k, false, true, sr,
        Option.none, al.length - rest.length⟩) := by
  have hnt := NextToken_ident al ct sel sd false false sr lo k rest hk hbi hbw
  simp [NextSelector, selDispatch, NextSelectorToken, hnt, ValidTokensAtStart, selKeyCase,
    SetSelector, ScanOffset]

theorem NextSelector_key_afterPeriod (al : List Char) (ct : TokenData) (sel : ESelector)
    (sd : SelectorData) (sr : Bool) (lo : Nat) (k rest : List Char)
    (hk : goodKey k = true) (hbi : headNot identC rest) (hbw : headNot wsC rest) :
    NextSelector ⟨'.' :: (k ++ rest), al, ct, sel, sd, false, true, sr, Option.none, lo⟩ =
      (.key, ⟨rest, al, ⟨.unquotedIdentifier, k⟩, .key, .argKey k, false, true, true,
        Option.none, al.length - rest.length⟩) := by
  have hnt1 := NextToken_single al ct sel sd false true sr lo '.' (k ++ rest)
    EToken.period rfl (by simp) (goodKey_headNot_ws hk rest)
  have hnt2 := NextToken_ident al ⟨EToken.period, ['.']⟩ sel sd false false true lo k rest
    hk hbi hbw
  simp [NextSelector, selDispatch, NextSelectorToken, hnt1, hnt2, ValidTokensAtStart,
    ValidTokensAtBase, selKeyCase, SetSelector, ScanOffset]

theorem goodKey_of_digits {ds : List Char} (hne : ds ≠ [])
    (hd : ds.all isDigitC = true) : goodKey ds = true := by
  cases ds with
  | nil => exact absurd rfl hne
  | cons c cs =>
    simp only [goodKey, List.isEmpty_cons, Bool.not_false, Bool.true_and]
    rw [List.all_eq_true] at hd ⊢
    intro x hx
    exact isDigitC_identC (hd x hx)

theorem NextSelector_index_start (al : List Char) (ct : TokenData) (sel : ESelector)
    (sd : SelectorData) (sr : Bool) (lo : Nat) (ds rest : List Char)
    (hne : ds ≠ []) (hd : ds.all isDigitC = true) (hval : digitsVal ds < sizeTMod)
    (hbw : headNot wsC rest) :
    NextSelector ⟨'[' :: (ds ++ ']' :: rest), al, ct, sel, sd, false, false, sr,
        Option.none, lo⟩ =
      (.index, ⟨rest, al, ⟨.closeBracket, [']']⟩, .index, .argIndex (digitsVal ds),
        false, true, sr, Option.none, al.length - rest.length⟩) := by
  have hgk : goodKey ds = true := goodKey_of_digits hne hd
  have hnt1 := NextToken_single al ct sel sd false false sr lo '[' (ds ++ ']' :: rest)
    EToken.openBracket rfl (by simp) (goodKey_headNot_ws hgk _)
  have hnt2 := NextToken_ident al ⟨EToken.openBracket, ['[']⟩ sel sd false false sr lo
    ds (']' :: rest) hgk (by simp [headNot]; decide) (by simp [headNot]; decide)
  have hgo : asIndexGo ds 0 = .value (digitsVal ds) := asIndexGo_value ds 0 hd hval
  have hnt3 := NextToken_single al ⟨EToken.unquotedIdentifier, ds⟩ sel sd false false sr lo
    ']' rest EToken.closeBracket rfl (by simp) hbw
  simp [NextSelector, selDispatch, NextSelectorToken, selBracketCase, AsIndex, hnt1, hnt2, hnt3, hgo,
    ValidTokensAtStart, SetSelector, ScanOffset, digitsVal]

/-- A key token that cannot be an index: it has a non-digit character,
reached before any (detected) decimal overflow. -/
def filterKeyTok (k : List Char) : Prop :=
  k.dropWhile isDigitC ≠ [] ∧ digitsVal (k.takeWhile isDigitC) < sizeTMod

theorem NextSelector_bracketKey_noEq (al : List Char) (ct : TokenData) (sel : ESelector)
    (sd : SelectorData) (sr : Bool) (lo : Nat) (k rest : List Char)
    (hk : goodKey k = true) (hf : filterKeyTok k) (hbw : headNot wsC rest) :
    NextSelector ⟨'[' :: (k ++ ']' :: rest), al, ct, sel, sd, false, false, sr,
        Option.none, lo⟩ =
      (.invalid, ⟨rest, al, ⟨.invalid, []⟩, .invalid, .argNull, false, false, sr,
        some ⟨.invalidToken, al.length - rest.length, [']']⟩, lo⟩) := by
  have hnt1 := NextToken_single al ct sel sd false false sr lo '[' (k ++ ']' :: rest)
    EToken.openBracket rfl (by simp) (goodKey_headNot_ws hk _)
  have hnt2 := NextToken_ident al ⟨EToken.openBracket, ['[']⟩ sel sd false false sr lo
    k (']' :: rest) hk (by simp [headNot]; decide) (by simp [headNot]; decide)
  have hgo : asIndexGo k 0 = .notIndex := asIndexGo_notIndex k 0 hf.1 hf.2
  have hnt3 := NextToken_single al ⟨EToken.unquotedIdentifier, k⟩ sel sd false false sr lo
    ']' rest EToken.closeBracket rfl (by simp) hbw
  simp [NextSelector, selDispatch, NextSelectorToken, selBracketCase, AsIndex, hnt1, hnt2, hnt3, hgo,
    ValidTokensAtStart, SetError, SetSelector, ScanOffset]

theorem NextSelector_filterNoValue (al : List Char) (ct : TokenData) (sel : ESelector)
    (sd : SelectorData) (sr : Bool) (lo : Nat) (k rest : List Char)
    (hk : goodKey k = true) (hf : filterKeyTok k) (hbw : headNot wsC rest) :
    NextSelector ⟨'[' :: (k ++ '=' :: ']' :: rest), al, ct, sel, sd, false, false, sr,
        Option.none, lo⟩ =
      (.seqMapFilter, ⟨rest, al, ⟨.closeBracket, [']']⟩, .seqMapFilter,
        .argSeqMapFilter k Option.none, false, true, sr, Option.none,
        al.length - rest.length⟩) := by
  have hnt1 := NextToken_single al ct sel sd false false sr lo '['
    (k ++ '=' :: ']' :: rest) EToken.openBracket rfl (by simp) (goodKey_headNot_ws hk _)
  have hnt2 := NextToken_ident al ⟨EToken.openBracket, ['[']⟩ sel sd false false sr lo
    k ('=' :: ']' :: rest) hk (by simp [headNot]; decide) (by simp [headNot]; decide)
  have hgo : asIndexGo k 0 = .notIndex := asIndexGo_notIndex k 0 hf.1 hf.2
  have hnt3 := NextToken_single al ⟨EToken.unquotedIdentifier, k⟩ sel sd false false sr lo
    '=' (']' :: rest) EToken.equal rfl (by simp) (by simp [headNot]; decide)
  have hnt4 := NextToken_single al ⟨EToken.equal, ['=']⟩ sel sd false false sr lo
    ']' rest EToken.closeBracket rfl (by simp) hbw
  simp [NextSelector, selDispatch, NextSelectorToken, selBracketCase, selFilterFinish, AsIndex,
    hnt1, hnt2, hnt3, hnt4, hgo, ValidTokensAtStart, SetSelector, ScanOffset]

/-- A bracketed key whose leading digit run fires the `value < prev`
wrap test: `AsIndex` records `InvalidIndex` (snippet: the whole token,
offset: end of the token) before the rest of the bracket is looked at. -/
theorem NextSelector_bracketKey_overflow (al : List Char) (ct : TokenData)
    (sel : ESelector) (sd : SelectorData) (sr : Bool) (lo : Nat) (k rest : List Char)
    (hk : goodKey k = true) (hov : asIndexGo k 0 = .overflowed)
    (hbi : headNot identC rest) (hbw : headNot wsC rest) :
    NextSelector ⟨'[' :: (k ++ rest), al, ct, sel, sd, false, false, sr,
        Option.none, lo⟩ =
      (.invalid, ⟨rest, al, ⟨.invalid, []⟩, .invalid, .argNull, false, false, sr,
        some ⟨.invalidIndex, al.length - rest.length, k⟩, lo⟩) := by
  have hnt1 := NextToken_single al ct sel sd false false sr lo '[' (k ++ rest)
    EToken.openBracket rfl (by simp) (goodKey_headNot_ws hk _)
  have hnt2 := NextToken_ident al ⟨EToken.openBracket, ['[']⟩ sel sd false false sr lo
    k rest hk hbi hbw
  simp [NextSelector, selDispatch, NextSelectorToken, selBracketCase, AsIndex,
    hnt1, hnt2, hov, ValidTokensAtStart, SetError, SetSelector, ScanOffset]

theorem NextSelector_filterValue (al : List Char) (ct : TokenData) (sel : ESelector)
    (sd : SelectorData) (sr : Bool) (lo : Nat) (k v rest : List Char)
    (hk : goodKey k = true) (hf : filterKeyTok k) (hv : goodKey v = true)
    (hbw : headNot wsC rest) :
    NextSelector ⟨'[' :: (k ++ '=' :: (v ++ ']' :: rest)), al, ct, sel, sd, false, false,
        sr, Option.none, lo⟩ =
      (.seqMapFilter, ⟨rest, al, ⟨.closeBracket, [']']⟩, .seqMapFilter,
        .argSeqMapFilter k (some v), false, true, sr, Option.none,
        al.length - rest.length⟩) := by
  have hnt1 := NextToken_single al ct sel sd false false sr lo '['
    (k ++ '=' :: (v ++ ']' :: rest)) EToken.openBracket rfl (by simp)
    (goodKey_headNot_ws hk _)
  have hnt2 := NextToken_ident al ⟨EToken.openBracket, ['[']⟩ sel sd false false sr lo
    k ('=' :: (v ++ ']' :: rest)) hk (by simp [headNot]; decide) (by simp [headNot]; decide)
  have hgo : asIndexGo k 0 = .notIndex := asIndexGo_notIndex k 0 hf.1 hf.2
  have hnt3 := NextToken_single al ⟨EToken.unquotedIdentifier, k⟩ sel sd false false sr lo
    '=' (v ++ ']' :: rest) EToken.equal rfl (by simp) (goodKey_headNot_ws hv _)
  have hnt4 := NextToken_ident al ⟨EToken.equal, ['=']⟩ sel sd false false sr lo
    v (']' :: rest) hv (by simp [headNot]; decide) (by simp [headNot]; decide)
  have hnt5 := NextToken_single al ⟨EToken.unquotedIdentifier, v⟩ sel sd false false sr lo
    ']' rest EToken.closeBracket rfl (by simp) hbw
  simp [NextSelector, selDispatch, NextSelectorToken, selBracketCase, selFilterFinish, AsIndex,
    hnt1, hnt2, hnt3, hnt4, hnt5, hgo, ValidTokensAtStart, SetSelector, ScanOffset]

/-! Loop control. -/

theorem initScanner_eq (p : List Char) :
    initScanner p = ⟨p.dropWhile wsC, p, ⟨.none, []⟩, .none, .argNull, false, false,
      false, Option.none, 0⟩ := rfl

theorem initScanner_noWS (p : List Char) (h : headNot wsC p) :
    initScanner p = ⟨p, p, ⟨.none, []⟩, .none, .argNull, false, false,
      false, Option.none, 0⟩ := by
  rw [initScanner_eq, dropWhile_headNot wsC p h]

theorem scanBool_of_exception (s : PathScanner) (ex : PathException)
    (h : s.curException = some ex) : scanBool s = false := by
  simp [scanBool, h]

theorem pathValidateLoop_exit (m : Nat) (s : PathScanner) (h : scanBool s = false) :
    pathValidateLoop m s = s := by
  cases m <;> simp [pathValidateLoop, h]

theorem pathValidateLoop_succ (m : Nat) (s : PathScanner) (h : scanBool s = true) :
    pathValidateLoop (m + 1) s = pathValidateLoop m (NextSelector s).2 := by
  simp [pathValidateLoop, h]

theorem pathResolveLoop_exit (m : Nat) (s : PathScanner) (node : Node) (pv : List Char)
    (h : scanBool s = false) :
    pathResolveLoop (m + 1) s node pv = (.none, node, s.rpath) := by
  simp [pathResolveLoop, h]

theorem NextToken_single_gen (al : List Char) (ct : TokenData) (sel : ESelector)
    (sd : SelectorData) (tp pa sr : Bool) (lo : Nat) (c : Char) (rest : List Char)
    (t : EToken) (ht : singleCharToken c = t) (hne : t ≠ EToken.none) :
    NextToken ⟨c :: rest, al, ct, sel, sd, tp, pa, sr, Option.none, lo⟩ =
      ⟨rest.dropWhile wsC, al, ⟨t, [c]⟩, sel, sd, tp, pa, sr, Option.none, lo⟩ := by
  simp only [NextToken, Option.isSome_none, Bool.false_eq_true, if_false, ht, ne_eq,
    hne, not_false_eq_true, if_true, SetToken, SkipWS]

theorem dropWhile_all (p : Char → Bool) (l : List Char) (h : l.all p = true) :
    l.dropWhile p = [] := by
  induction l with
  | nil => rfl
  | cons c cs ih =>
    simp only [List.all_cons, Bool.and_eq_true] at h
    rw [List.dropWhile_cons_of_pos h.1, ih h.2]

/-! Dotted-keys resolution. -/

theorem headNot_dottedTail_ident (ks : List (List Char)) : headNot identC (dottedTail ks) := by
  cases ks with
  | nil => trivial
  | cons k ks => simp [dottedTail, headNot]; decide

theorem headNot_dottedTail_ws (ks : List (List Char)) : headNot wsC (dottedTail ks) := by
  cases ks with
  | nil => trivial
  | cons k ks => simp [dottedTail, headNot]; decide

theorem IsMatch_defined {v : Node} (h : IsMatch v = true) : v.isDefined = true := by
  cases v <;> simp_all [IsMatch, Node.isDefined]

theorem SeqMapByKey_map_match (n : Node) (k : List Char) (hm : n.isMap = true)
    (hmt : IsMatch (lookupKey n k) = true) : SeqMapByKey n k = (.none, lookupKey n k) := by
  cases n with
  | map entries => simp [SeqMapByKey, lookupKey] at hmt ⊢; simp [hmt]
  | _ => simp [Node.isMap] at hm

theorem resolveDotted_aux (ks : List (List Char)) : ∀ (n : Node) (al : List Char)
    (ct : TokenData) (sel : ESelector) (sd : SelectorData) (sr : Bool) (lo : Nat)
    (fuel : Nat) (pv : List Char), goodKeys ks = true → chainOK n ks = true →
    n.isDefined = true → ct.id ≠ EToken.invalid → (dottedTail ks).length + 1 ≤ fuel →
    pathResolveLoop fuel ⟨dottedTail ks, al, ct, sel, sd, false, true, sr,
        Option.none, lo⟩ n pv =
      (.none, chainNode n ks, []) := by
  induction ks with
  | nil =>
    intro n al ct sel sd sr lo fuel pv _ _ _ _ hfuel
    obtain ⟨f, rfl⟩ : ∃ f, fuel = f + 1 := ⟨fuel - 1, by omega⟩
    exact pathResolveLoop_exit _ _ _ _ (by simp [scanBool, dottedTail])
  | cons k ks ih =>
    intro n al ct sel sd sr lo fuel pv hgk hco hdef hct hfuel
    simp only [goodKeys, List.all_cons, Bool.and_eq_true] at hgk
    simp only [chainOK, Bool.and_eq_true] at hco
    have hklen : 1 ≤ k.length := by
      have hg := hgk.1
      cases k with
      | nil => simp [goodKey] at hg
      | cons a l => simp
    have hlen : (dottedTail (k :: ks)).length = 1 + k.length + (dottedTail ks).length := by
      simp [dottedTail]; omega
    obtain ⟨f, rfl⟩ : ∃ f, fuel = f + 1 := ⟨fuel - 1, by omega⟩
    have hns := NextSelector_key_afterPeriod al ct sel sd sr lo k (dottedTail ks)
      hgk.1 (headNot_dottedTail_ident ks) (headNot_dottedTail_ws ks)
    simp only [dottedTail, pathResolveLoop]
    rw [if_pos (show scanBool ⟨'.' :: (k ++ dottedTail ks), al, ct, sel, sd, false, true,
      sr, Option.none, lo⟩ = true from by simp [scanBool, hct])]
    rw [if_neg (show ¬((!n.isDefined) = true) from by simp [hdef])]
    rw [hns]
    have happ := SeqMapByKey_map_match n k hco.1.1 hco.1.2
    simp only [argKeyOf, happ]
    rw [show chainNode n (k :: ks) = chainNode (lookupKey n k) ks from rfl]
    exact ih (lookupKey n k) al ⟨.unquotedIdentifier, k⟩ .key (.argKey k) true _ f _
      hgk.2 hco.2 (IsMatch_defined hco.1.2) (by simp) (by omega)

/-! The scanner only ever consumes input: every produced state's
remaining path is a suffix of the one before. -/

theorem SetError_rpath (s : PathScanner) (e : EPathError) :
    (SetError s e).rpath = s.rpath := rfl

theorem NextToken_rpath_suffix (s : PathScanner) : (NextToken s).rpath <:+ s.rpath := by
  obtain ⟨rp, al, ct, sel, sd, tp, pa, sr, ce, lo⟩ := s
  cases rp with
  | nil => simp [NextToken, SetToken, SkipWS]
  | cons head tail =>
    simp only [NextToken]
    repeat' split
    all_goals simp only [SetToken, SkipWS, SetError, SetSelector]
    all_goals
      first
      | exact List.suffix_refl _
      | exact (List.dropWhile_suffix wsC).trans (List.suffix_cons head tail)
      | exact (List.dropWhile_suffix wsC).trans (List.dropWhile_suffix identC)
      | exact (List.dropWhile_suffix wsC).trans
          ((List.drop_suffix _ tail).trans (List.suffix_cons head tail))
      | exact List.dropWhile_suffix wsC

theorem AsIndex_rpath (s : PathScanner) : ((AsIndex s).2).rpath = s.rpath := by
  unfold AsIndex
  split
  · rfl
  · split <;> rfl

theorem NextSelectorToken_rpath_suffix (s : PathScanner) (valid : List EToken)
    (err : EPathError) : ((NextSelectorToken s valid err).2).rpath <:+ s.rpath := by
  have hnt := NextToken_rpath_suffix s
  unfold NextSelectorToken
  cases hp : s.tokenPending with
  | false =>
    simp only [hp, Bool.not_false, if_true]
    split
    · simpa using hnt
    · simpa [SetError, SetSelector] using hnt
  | true =>
    simp only [hp, Bool.not_true, Bool.false_eq_true, if_false]
    split
    · exact List.suffix_refl _
    · simp [SetError, SetSelector]

theorem selBracketCase_rpath_suffix (s : PathScanner) :
    ((selBracketCase s).2).rpath <:+ s.rpath := by
  unfold selBracketCase
  rcases h1 : NextSelectorToken s [.unquotedIdentifier, .quotedIdentifier] .invalidIndex
    with ⟨b1, s1⟩
  have hs1 : s1.rpath <:+ s.rpath := by
    have h := NextSelectorToken_rpath_suffix s [.unquotedIdentifier, .quotedIdentifier]
      .invalidIndex
    rw [h1] at h; exact h
  cases b1 with
  | false => simpa using hs1
  | true =>
    simp only []
    rcases h2 : AsIndex s1 with ⟨idx, s2⟩
    have hs2 : s2.rpath <:+ s.rpath := by
      have h := AsIndex_rpath s1
      rw [h2] at h; rw [h]; exact hs1
    cases idx with
    | some i =>
      simp only []
      rcases h3 : NextSelectorToken s2 [.closeBracket] .invalidToken with ⟨b3, s3⟩
      have hs3 : s3.rpath <:+ s.rpath := by
        have h := NextSelectorToken_rpath_suffix s2 [.closeBracket] .invalidToken
        rw [h3] at h; exact h.trans hs2
      cases b3 <;> simpa [SetSelector] using hs3
    | none =>
      by_cases hex : s2.curException.isSome = true
      · simp only [hex, if_true]
        simpa using hs2
      · simp only [hex, Bool.false_eq_true, if_false]
        rcases h3 : NextSelectorToken s2 [.equal] .invalidToken with ⟨b3, s3⟩
        have hs3 : s3.rpath <:+ s.rpath := by
          have h := NextSelectorToken_rpath_suffix s2 [.equal] .invalidToken
          rw [h3] at h; exact h.trans hs2
        cases b3 with
        | false => simpa using hs3
        | true =>
          simp only []
          rcases h4 : NextSelectorToken s3
            [.quotedIdentifier, .unquotedIdentifier, .closeBracket] .invalidToken
            with ⟨b4, s4⟩
          have hs4 : s4.rpath <:+ s.rpath := by
            have h := NextSelectorToken_rpath_suffix s3
              [.quotedIdentifier, .unquotedIdentifier, .closeBracket] .invalidToken
            rw [h4] at h; exact h.trans hs3
          cases b4 with
          | false => simpa using hs4
          | true =>
            simp only []
            by_cases hcb : s4.curToken.id = EToken.closeBracket
            · simp only [hcb, ne_eq, not_true_eq_false, Bool.false_eq_true, if_false]
              simpa [selFilterFinish, SetSelector] using hs4
            · simp only [ne_eq, hcb, not_false_eq_true, if_true]
              rcases h5 : NextSelectorToken s4 [.closeBracket] .invalidToken with ⟨b5, s5⟩
              have hs5 : s5.rpath <:+ s.rpath := by
                have h := NextSelectorToken_rpath_suffix s4 [.closeBracket] .invalidToken
                rw [h5] at h; exact h.trans hs4
              cases b5 <;> simpa [selFilterFinish, SetSelector] using hs5

theorem selDispatch_rpath_suffix (s : PathScanner) :
    ((selDispatch s).2).rpath <:+ s.rpath := by
  unfold selDispatch
  rcases h1 : NextSelectorToken s ValidTokensAtStart .invalidToken with ⟨b1, sB⟩
  have hsB : sB.rpath <:+ s.rpath := by
    have h := NextSelectorToken_rpath_suffix s ValidTokensAtStart .invalidToken
    rw [h1] at h; exact h
  cases b1 with
  | false => simpa using hsB
  | true =>
    simp only []
    have hbr := (selBracketCase_rpath_suffix sB).trans hsB
    repeat' split
    all_goals
      first
      | simpa [SetError, SetSelector] using hsB
      | simpa [selKeyCase, SetSelector] using hsB
      | simpa using hbr

theorem NextSelector_rpath_suffix (s : PathScanner) :
    ((NextSelector s).2).rpath <:+ s.rpath := by
  unfold NextSelector
  by_cases hex : s.curException.isSome = true
  · simp [hex]
  simp only [hex, Bool.false_eq_true, if_false]
  cases hpa : s.periodAllowed with
  | false =>
    simpa using selDispatch_rpath_suffix s
  | true =>
    simp only [hpa, if_true]
    rcases h1 : NextSelectorToken s ValidTokensAtBase .invalidToken with ⟨b1, s1⟩
    have hs1 : s1.rpath <:+ s.rpath := by
      have h := NextSelectorToken_rpath_suffix s ValidTokensAtBase .invalidToken
      rw [h1] at h; exact h
    cases b1 with
    | false => simpa using hs1
    | true =>
      simp only []
      by_cases hpd : s1.curToken.id = EToken.period
      · simp only [hpd, if_true]
        exact (selDispatch_rpath_suffix
          { s1 with periodAllowed := false, selectorRequired := true }).trans hs1
      · simp only [hpd, if_false]
        exact (selDispatch_rpath_suffix
          { s1 with periodAllowed := false, tokenPending := true }).trans hs1

/-! Atomicity of the three selector applications. -/

theorem SeqMapByKey_atomic (n : Node) (k : List Char) (e : EPathError) (n2 : Node)
    (h : SeqMapByKey n k = (e, n2)) (he : e ≠ .none) : n2 = n := by
  cases n
  all_goals simp only [SeqMapByKey] at h
  all_goals repeat' split at h
  all_goals rw [Prod.mk.injEq] at h
  all_goals first | exact h.2.symm | exact absurd h.1.symm he

theorem SeqMapFilter_atomic (n : Node) (k : List Char) (v : Option (List Char))
    (e : EPathError) (n2 : Node) (h : SeqMapFilter n k v = (e, n2)) (he : e ≠ .none) :
    n2 = n := by
  cases n
  all_goals simp only [SeqMapFilter] at h
  all_goals repeat' split at h
  all_goals rw [Prod.mk.injEq] at h
  all_goals first | exact h.2.symm | exact absurd h.1.symm he

theorem resolveIndexStep_atomic (n : Node) (i : Nat) (e : EPathError) (n2 : Node)
    (h : resolveIndexStep n i = (e, n2)) (he : e ≠ .none) : n2 = n := by
  simp only [resolveIndexStep] at h
  repeat' split at h
  all_goals rw [Prod.mk.injEq] at h
  all_goals first | exact h.2.symm | exact absurd h.1.symm he

/-- Every node the resolver loop can return arises from a chain of fully
successful selector applications on the input node. -/
theorem pathResolveLoop_chain (fuel : Nat) : ∀ (s : PathScanner) (n : Node)
    (pv : List Char), ∃ σ, applySteps n σ = some (pathResolveLoop fuel s n pv).2.1 := by
  induction fuel with
  | zero => intro s n pv; exact ⟨[], rfl⟩
  | succ f ih =>
    intro s n pv
    by_cases hs : scanBool s = true
    · by_cases hd : n.isDefined = true
      · rcases hns : NextSelector s with ⟨sel, s2⟩
        cases sel with
        | key =>
          rcases hsm : SeqMapByKey n (argKeyOf s2.selectorData) with ⟨e, n2⟩
          have hstep : pathResolveLoop (f + 1) s n pv =
              match (e, n2) with
              | (.none, node2) => pathResolveLoop f s2 node2 s.rpath
              | (e, node2) => (e, node2, s.rpath) := by
            simp only [pathResolveLoop]
            rw [if_pos hs, if_neg (by simp [hd]), hns]
            simp only [hsm]
          cases e with
          | none =>
            rw [hstep]
            obtain ⟨σ, hσ⟩ := ih s2 n2 s.rpath
            exact ⟨.key (argKeyOf s2.selectorData) :: σ, by
              simp [applySteps, applyStep, hsm, hσ]⟩
          | _ =>
            rw [hstep]
            refine ⟨[], ?_⟩
            simp [applySteps, SeqMapByKey_atomic n _ _ n2 hsm (by simp)]
        | index =>
          rcases hsm : resolveIndexStep n (argIndexOf s2.selectorData) with ⟨e, n2⟩
          have hstep : pathResolveLoop (f + 1) s n pv =
              match (e, n2) with
              | (.none, node2) => pathResolveLoop f s2 node2 s.rpath
              | (e, node2) => (e, node2, s.rpath) := by
            simp only [pathResolveLoop]
            rw [if_pos hs, if_neg (by simp [hd]), hns]
            simp only [hsm]
          cases e with
          | none =>
            rw [hstep]
            obtain ⟨σ, hσ⟩ := ih s2 n2 s.rpath
            exact ⟨.index (argIndexOf s2.selectorData) :: σ, by
              simp [applySteps, applyStep, hsm, hσ]⟩
          | _ =>
            rw [hstep]
            refine ⟨[], ?_⟩
            simp [applySteps, resolveIndexStep_atomic n _ _ n2 hsm (by simp)]
        | seqMapFilter =>
          rcases hsm : SeqMapFilter n (argFilterOf s2.selectorData).1
            (argFilterOf s2.selectorData).2 with ⟨e, n2⟩
          have hstep : pathResolveLoop (f + 1) s n pv =
              match (e, n2) with
              | (.none, node2) => pathResolveLoop f s2 node2 s.rpath
              | (e, node2) => (e, node2, s.rpath) := by
            simp only [pathResolveLoop]
            rw [if_pos hs, if_neg (by simp [hd]), hns]
            simp only [hsm]
          cases e with
          | none =>
            rw [hstep]
            obtain ⟨σ, hσ⟩ := ih s2 n2 s.rpath
            exact ⟨.filter (argFilterOf s2.selectorData).1 (argFilterOf s2.selectorData).2
              :: σ, by simp [applySteps, applyStep, hsm, hσ]⟩
          | _ =>
            rw [hstep]
            refine ⟨[], ?_⟩
            simp [applySteps, SeqMapFilter_atomic n _ _ _ n2 hsm (by simp)]
        | invalid =>
          have hstep : pathResolveLoop (f + 1) s n pv = pathResolveLoop f s2 n s.rpath := by
            simp only [pathResolveLoop]
            rw [if_pos hs, if_neg (by simp [hd]), hns]
          rw [hstep]
          exact ih s2 n s.rpath
        | none =>
          have hstep : pathResolveLoop (f + 1) s n pv = pathResolveLoop f s2 n s.rpath := by
            simp only [pathResolveLoop]
            rw [if_pos hs, if_neg (by simp [hd]), hns]
          rw [hstep]
          exact ih s2 n s.rpath
      · have hstep : pathResolveLoop (f + 1) s n pv = (.nodeNotFound, n, pv) := by
          simp only [pathResolveLoop]
          rw [if_pos hs, if_pos (by simp [Bool.not_eq_true] at hd ⊢; exact hd)]
        rw [hstep]
        exact ⟨[], rfl⟩
    · have hstep : pathResolveLoop (f + 1) s n pv = (.none, n, s.rpath) :=
        pathResolveLoop_exit f s n pv (by simpa using hs)
      rw [hstep]
      exact ⟨[], rfl⟩

theorem pathResolveLoop_path_suffix (fuel : Nat) : ∀ (s : PathScanner) (n : Node)
    (pv p : List Char), s.rpath <:+ p → pv <:+ p →
    (pathResolveLoop fuel s n pv).2.2 <:+ p := by
  induction fuel with
  | zero => intro s n pv p hs _; exact hs
  | succ f ih =>
    intro s n pv p hs hpv
    by_cases hsb : scanBool s = true
    · by_cases hd : n.isDefined = true
      · rcases hns : NextSelector s with ⟨sel, s2⟩
        have hs2 : s2.rpath <:+ p := by
          have h := NextSelector_rpath_suffix s
          rw [hns] at h; exact h.trans hs
        cases sel with
        | key =>
          rcases hsm : SeqMapByKey n (argKeyOf s2.selectorData) with ⟨e, n2⟩
          have hstep : pathResolveLoop (f + 1) s n pv =
              match (e, n2) with
              | (.none, node2) => pathResolveLoop f s2 node2 s.rpath
              | (e, node2) => (e, node2, s.rpath) := by
            simp only [pathResolveLoop]
            rw [if_pos hsb, if_neg (by simp [hd]), hns]
            simp only [hsm]
          rw [hstep]
          cases e with
          | none => exact ih s2 n2 s.rpath p hs2 hs
          | _ => exact hs
        | index =>
          rcases hsm : resolveIndexStep n (argIndexOf s2.selectorData) with ⟨e, n2⟩
          have hstep : pathResolveLoop (f + 1) s n pv =
              match (e, n2) with
              | (.none, node2) => pathResolveLoop f s2 node2 s.rpath
              | (e, node2) => (e, node2, s.rpath) := by
            simp only [pathResolveLoop]
            rw [if_pos hsb, if_neg (by simp [hd]), hns]
            simp only [hsm]
          rw [hstep]
          cases e with
          | none => exact ih s2 n2 s.rpath p hs2 hs
          | _ => exact hs
        | seqMapFilter =>
          rcases hsm : SeqMapFilter n (argFilterOf s2.selectorData).1
            (argFilterOf s2.selectorData).2 with ⟨e, n2⟩
          have hstep : pathResolveLoop (f + 1) s n pv =
              match (e, n2) with
              | (.none, node2) => pathResolveLoop f s2 node2 s.rpath
              | (e, node2) => (e, node2, s.rpath) := by
            simp only [pathResolveLoop]
            rw [if_pos hsb, if_neg (by simp [hd]), hns]
            simp only [hsm]
          rw [hstep]
          cases e with
          | none => exact ih s2 n2 s.rpath p hs2 hs
          | _ => exact hs
        | invalid =>
          have hstep : pathResolveLoop (f + 1) s n pv = pathResolveLoop f s2 n s.rpath := by
            simp only [pathResolveLoop]
            rw [if_pos hsb, if_neg (by simp [hd]), hns]
          rw [hstep]
          exact ih s2 n s.rpath p hs2 hs
        | none =>
          have hstep : pathResolveLoop (f + 1) s n pv = pathResolveLoop f s2 n s.rpath := by
            simp only [pathResolveLoop]
            rw [if_pos hsb, if_neg (by simp [hd]), hns]
          rw [hstep]
          exact ih s2 n s.rpath p hs2 hs
      · have hstep : pathResolveLoop (f + 1) s n pv = (.nodeNotFound, n, pv) := by
          simp only [pathResolveLoop]
          rw [if_pos hsb, if_pos (by simp [Bool.not_eq_true] at hd ⊢; exact hd)]
        rw [hstep]
        exact hpv
    · rw [pathResolveLoop_exit f s n pv (by simpa using hsb)]
      exact hs

/-! ## Claims -/

/-- C7: once an error has been recorded on a scanner/parser instance it is
sticky: every subsequent `NextSelector` call returns `Invalid` and leaves
the state — in particular the recorded error and the unscanned remainder
— completely unchanged (no rescanning happens). -/
theorem C7_sticky_error (s : PathScanner) (ex : PathException)
    (h : s.curException = some ex) : NextSelector s = (.invalid, s) := by
  simp [NextSelector, h]

theorem C7_sticky_error_witness :
    NextSelector ⟨['b'], ['a', 'b'], ⟨.invalid, []⟩, .invalid, .argNull, false, false,
        false, some ⟨.invalidToken, 1, []⟩, 0⟩ =
      (.invalid, ⟨['b'], ['a', 'b'], ⟨.invalid, []⟩, .invalid, .argNull, false, false,
        false, some ⟨.invalidToken, 1, []⟩, 0⟩) :=
  C7_sticky_error _ ⟨.invalidToken, 1, []⟩ rfl

/-- C8: a path that ends (possibly after trailing whitespace) right after
a separator `.` following a selector yields `UnexpectedEnd`: from any
error-free parser state that has just produced a selector
(`periodAllowed`, no pending token) and whose remaining path is `.`
followed only by whitespace, `NextSelector` records `UnexpectedEnd` at
the end-of-path offset; in particular `a.` fails with `UnexpectedEnd` at
offset 2. -/
theorem C8_trailing_separator :
    (∀ (al : List Char) (ct : TokenData) (sel : ESelector) (sd : SelectorData)
        (sr : Bool) (lo : Nat) (w : List Char), w.all wsC = true →
      NextSelector ⟨'.' :: w, al, ct, sel, sd, false, true, sr, Option.none, lo⟩ =
        (.invalid, ⟨[], al, ⟨.invalid, []⟩, .invalid, .argNull, false, false, true,
          some ⟨.unexpectedEnd, al.length, []⟩, lo⟩)) ∧
    ((pathValidateRun ('a' :: ['.'])).curException = some ⟨.unexpectedEnd, 2, []⟩ ∧
      PathValidate ('a' :: ['.']) = .unexpectedEnd) := by
  constructor
  · intro al ct sel sd sr lo w hw
    have hnt1 := NextToken_single_gen al ct sel sd false true sr lo '.' w
      EToken.period rfl (by simp)
    rw [dropWhile_all wsC w hw] at hnt1
    have hnt2 := NextToken_empty al ⟨EToken.period, ['.']⟩ sel sd false false true lo
      Option.none
    simp [NextSelector, selDispatch, NextSelectorToken, hnt1, hnt2, ValidTokensAtStart,
      ValidTokensAtBase, SetError, SetSelector, ScanOffset]
  · exact ⟨rfl, rfl⟩

theorem C8_trailing_separator_witness :
    NextSelector ⟨['.'], ['a', '.'], ⟨.unquotedIdentifier, ['a']⟩, .key, .argKey ['a'],
        false, true, false, Option.none, 1⟩ =
      (.invalid, ⟨[], ['a', '.'], ⟨.invalid, []⟩, .invalid, .argNull, false, false, true,
        some ⟨.unexpectedEnd, 2, []⟩, 1⟩) :=
  C8_trailing_separator.1 ['a', '.'] ⟨.unquotedIdentifier, ['a']⟩ .key (.argKey ['a'])
    false 1 [] rfl

/-- C1 (amended): when `PathResolve` halts with a node error, the
remaining path is the scanner remainder captured at the start of the
failing iteration — it begins at the separator `.` preceding the failing
selector when one was consumed, not at the selector itself; only
selectors that both parsed and matched are consumed.  Concretely, `a.b`
against `{a: {c: 1}}` returns `NodeNotFound` with remaining path `.b`.
In general the returned remainder is a suffix of the original path, and
an iteration whose selector application fails returns the iteration's
entry remainder with the node unchanged (for each of the three selector
kinds). -/
theorem C1_amended_remaining_path :
    (PathResolve (.map [("a".toList, .map [("c".toList, .scalar "1".toList)])])
        ("a.b".toList) =
      (.nodeNotFound, .map [("c".toList, .scalar "1".toList)], ".b".toList)) ∧
    (∀ (p : List Char) (n : Node) (e : EPathError) (n2 : Node) (r : List Char),
      PathResolve n p = (e, n2, r) → r <:+ p) ∧
    (∀ (f : Nat) (s : PathScanner) (n : Node) (pv : List Char) (s2 : PathScanner)
        (k : List Char) (e : EPathError) (n2 : Node), scanBool s = true →
      n.isDefined = true → NextSelector s = (.key, s2) → s2.selectorData = .argKey k →
      SeqMapByKey n k = (e, n2) → e ≠ .none →
      pathResolveLoop (f + 1) s n pv = (e, n, s.rpath)) ∧
    (∀ (f : Nat) (s : PathScanner) (n : Node) (pv : List Char) (s2 : PathScanner)
        (i : Nat) (e : EPathError) (n2 : Node), scanBool s = true →
      n.isDefined = true → NextSelector s = (.index, s2) → s2.selectorData = .argIndex i →
      resolveIndexStep n i = (e, n2) → e ≠ .none →
      pathResolveLoop (f + 1) s n pv = (e, n, s.rpath)) ∧
    (∀ (f : Nat) (s : PathScanner) (n : Node) (pv : List Char) (s2 : PathScanner)
        (k : List Char) (v : Option (List Char)) (e : EPathError) (n2 : Node),
      scanBool s = true → n.isDefined = true →
      NextSelector s = (.seqMapFilter, s2) →
      s2.selectorData = .argSeqMapFilter k v → SeqMapFilter n k v = (e, n2) →
      e ≠ .none → pathResolveLoop (f + 1) s n pv = (e, n, s.rpath)) := by
  refine ⟨rfl, ?_, ?_, ?_, ?_⟩
  · intro p n e n2 r h
    have hs := pathResolveLoop_path_suffix (p.length + 1) (initScanner p) n p p
      (by rw [initScanner_eq]; exact List.dropWhile_suffix wsC) (List.suffix_refl p)
    rw [PathResolve] at h
    rw [h] at hs
    exact hs
  · intro f s n pv s2 k e n2 hsb hd hns hdata hsm he
    have hn2 := SeqMapByKey_atomic n k e n2 hsm he
    subst hn2
    simp only [pathResolveLoop]
    rw [if_pos hsb, if_neg (by simp [hd]), hns]
    simp only [hdata, argKeyOf, hsm]
  · intro f s n pv s2 i e n2 hsb hd hns hdata hsm he
    have hn2 := resolveIndexStep_atomic n i e n2 hsm he
    subst hn2
    simp only [pathResolveLoop]
    rw [if_pos hsb, if_neg (by simp [hd]), hns]
    simp only [hdata, argIndexOf, hsm]
  · intro f s n pv s2 k v e n2 hsb hd hns hdata hsm he
    have hn2 := SeqMapFilter_atomic n k v e n2 hsm he
    subst hn2
    simp only [pathResolveLoop]
    rw [if_pos hsb, if_neg (by simp [hd]), hns]
    simp only [hdata, argFilterOf, hsm]

theorem C1_amended_remaining_path_witness :
    pathResolveLoop 1 ⟨['b'], ['b'], ⟨.none, []⟩, .none, .argNull, false, false, false,
        Option.none, 0⟩ (.map [(['c'], .scalar ['1'])]) ['b'] =
      (.nodeNotFound, .map [(['c'], .scalar ['1'])], ['b']) :=
  C1_amended_remaining_path.2.2.1 0
    ⟨['b'], ['b'], ⟨.none, []⟩, .none, .argNull, false, false, false, Option.none, 0⟩
    (.map [(['c'], .scalar ['1'])]) ['b']
    ⟨[], ['b'], ⟨.unquotedIdentifier, ['b']⟩, .key, .argKey ['b'], false, true, false,
      Option.none, 1⟩
    ['b'] .nodeNotFound (.map [(['c'], .scalar ['1'])]) rfl rfl rfl rfl rfl (by decide)

/-- C3: the `value < prev` wrap test in `AsIndex` is an incomplete
overflow check.  The bracketed numeral `20496382304121724018` exceeds
`2 ^ 64 - 1`, yet scanning it raises no error and produces an `Index`
selector with the wrapped value `20496382304121724018 % 2 ^ 64`
(`= 2049638230412172402`); `PathValidate` accepts the path.  (The spec's
own example `a[99999999999999999999]` happens to be caught.) -/
theorem C3_overflow_wraps :
    2 ^ 64 ≤ 20496382304121724018 ∧
    (NextSelector (initScanner ("[20496382304121724018]".toList))).1 = .index ∧
    (NextSelector (initScanner ("[20496382304121724018]".toList))).2.selectorData =
      .argIndex (20496382304121724018 % 2 ^ 64) ∧
    (NextSelector (initScanner ("[20496382304121724018]".toList))).2.curException =
      Option.none ∧
    20496382304121724018 % 2 ^ 64 ≠ 20496382304121724018 ∧
    PathValidate ("[20496382304121724018]".toList) = EPathError.none ∧
    PathValidate ("a[99999999999999999999]".toList) = .invalidIndex := by
  refine ⟨by norm_num, rfl, rfl, rfl, by norm_num, rfl, rfl⟩

/-- C6: `PathResolve` never surfaces syntax-class errors.  On the path
`a[` — which stand-alone validation rejects with `InvalidIndex` at
offset 2 — `PathResolve` against `{a: 1}` exits its loop through the
`while` condition and returns `EPathError::None` with the path fully
consumed, silently swallowing the syntax error instead of failing with
the same kind and offset. -/
theorem C6_resolve_swallows_syntax_error :
    (pathValidateRun ("a[".toList)).curException = some ⟨.invalidIndex, 2, []⟩ ∧
    PathValidate ("a[".toList) = .invalidIndex ∧
    PathResolve (.map [("a".toList, .scalar "1".toList)]) ("a[".toList) =
      (EPathError.none, .scalar "1".toList, []) :=
  ⟨rfl, rfl, rfl⟩

/-- C1 (counterexample): resolving `a.b` against `{a: {c: 1}}` does fail
with `NodeNotFound`, but the remaining path is `.b` — the scanner
remainder captured before the separator was consumed — not `b` as the
claim states. -/
theorem C1_counterexample :
    PathResolve (.map [("a".toList, .map [("c".toList, .scalar "1".toList)])])
        ("a.b".toList) =
      (.nodeNotFound, .map [("c".toList, .scalar "1".toList)], ".b".toList) ∧
    ".b".toList ≠ "b".toList :=
  ⟨rfl, by decide⟩

/-- C9 (counterexample): an unterminated quote is not always reported as
`InvalidToken`: in the path `a['x` the quote is the first token inside a
bracket, where `NextSelectorToken` is invoked with error parameter
`InvalidIndex`, so validation reports `InvalidIndex` (still at the
opening-quote offset 2). -/
theorem C9_counterexample :
    PathValidate ('a' :: '[' :: squote :: ['x']) = .invalidIndex ∧
    EPathError.invalidIndex ≠ EPathError.invalidToken ∧
    (pathValidateRun ('a' :: '[' :: squote :: ['x'])).curException =
      some ⟨.invalidIndex, 2, []⟩ :=
  ⟨rfl, by decide, rfl⟩

/-- C9 (amended): a quoted identifier with no matching closing quote
before end of input makes the scan fail at the opening-quote offset: the
tokenizer produces an `Invalid` token without consuming anything, and the
enclosing `NextSelectorToken` call records the error it was
parameterized with — `InvalidToken` in key/value positions, but
`InvalidIndex` when the quote is the first token inside a bracket — with
offset equal to the opening quote's position.  Concretely: `'x` fails
with `InvalidToken` at 0, `a['x` with `InvalidIndex` at 2, and `a[k='x`
with `InvalidToken` at 4. -/
theorem C9_amended_unterminated_quote :
    (∀ (al : List Char) (ct : TokenData) (sel : ESelector) (sd : SelectorData)
        (pa sr : Bool) (lo : Nat) (q : Char) (r : List Char) (valid : List EToken)
        (err : EPathError), (q = squote || q = dquote) = true →
        r.findIdx? (· = q) = Option.none → EToken.invalid ∉ valid →
      NextSelectorToken ⟨q :: r, al, ct, sel, sd, false, pa, sr, Option.none, lo⟩
          valid err =
        (false, ⟨q :: r, al, ⟨.invalid, []⟩, .invalid, .argNull, false, pa, sr,
          some ⟨err, al.length - (q :: r).length, []⟩, lo⟩)) ∧
    ((pathValidateRun (squote :: ['x'])).curException = some ⟨.invalidToken, 0, []⟩ ∧
      (pathValidateRun ('a' :: '[' :: squote :: ['x'])).curException =
        some ⟨.invalidIndex, 2, []⟩ ∧
      (pathValidateRun ('a' :: '[' :: 'k' :: '=' :: squote :: ['x'])).curException =
        some ⟨.invalidToken, 4, []⟩) := by
  constructor
  · intro al ct sel sd pa sr lo q r valid err hq hfind hmem
    have hnt := NextToken_quoteFail al ct sel sd false pa sr lo q r hq hfind
    simp [NextSelectorToken, hnt, hmem, SetError, SetSelector, ScanOffset]
  · exact ⟨rfl, rfl, rfl⟩

theorem C9_amended_unterminated_quote_witness :
    NextSelectorToken ⟨squote :: ['x'], 'a' :: '[' :: squote :: ['x'],
        ⟨.openBracket, ['[']⟩, .key, .argKey ['a'], false, false, false,
        Option.none, 0⟩
        [.unquotedIdentifier, .quotedIdentifier] .invalidIndex =
      (false, ⟨squote :: ['x'], 'a' :: '[' :: squote :: ['x'], ⟨.invalid, []⟩,
        .invalid, .argNull, false, false, false, some ⟨.invalidIndex, 2, []⟩, 0⟩) :=
  C9_amended_unterminated_quote.1 ('a' :: '[' :: squote :: ['x'])
    ⟨.openBracket, ['[']⟩ .key (.argKey ['a']) false false 0 squote ['x']
    [.unquotedIdentifier, .quotedIdentifier] .invalidIndex (by decide) (by decide)
    (by decide)

theorem SeqMapFilter_seq_eq (xs : List Node) (k : List Char) (v : Option (List Char)) :
    SeqMapFilter (.seq xs) k v =
      (let kept := xs.filter fun el => SeqMapFilterMatchElement el k v
       if kept.isEmpty then (.nodeNotFound, .seq xs) else (.none, .seq kept)) := by
  cases hc : (xs.filter fun el => SeqMapFilterMatchElement el k v).isEmpty with
  | true => simp [SeqMapFilter, hc, IsMatch, Node.isDefined, Node.isNull]
  | false =>
    have hmt : IsMatch (Node.seq (xs.filter fun el => SeqMapFilterMatchElement el k v)) =
        true := by
      cases hsc : xs.filter fun el => SeqMapFilterMatchElement el k v with
      | nil => rw [hsc] at hc; simp at hc
      | cons a l =>
        simp [IsMatch, Node.isDefined, Node.isNull, Node.isSequence, Node.isMap,
          Node.size]
    simp [SeqMapFilter, hc, hmt]

theorem dropWhile_ne_nil_of_exists (p : Char → Bool) (k : List Char)
    (h : ∃ c ∈ k, p c = false) : k.dropWhile p ≠ [] := by
  induction k with
  | nil => simp at h
  | cons a l ih =>
    obtain ⟨c, hmem, hc⟩ := h
    by_cases ha : p a = true
    · rw [List.dropWhile_cons_of_pos ha]
      rcases List.mem_cons.mp hmem with rfl | hmem
      · rw [ha] at hc; cases hc
      · exact ih ⟨c, hmem, hc⟩
    · rw [List.dropWhile_cons_of_neg (by simpa using ha)]
      simp

theorem takeWhile_all (p : Char → Bool) (k : List Char) :
    (k.takeWhile p).all p = true := by
  induction k with
  | nil => rfl
  | cons a l ih =>
    by_cases ha : p a = true
    · rw [List.takeWhile_cons_of_pos ha]
      simp [ha, ih]
    · rw [List.takeWhile_cons_of_neg (by simpa using ha)]
      rfl

/-- A key with a non-digit among its first 19 characters is a filter-key
token: `AsIndex` hits the non-digit (and errors no earlier, the digit
prefix being too short to overflow). -/
theorem filterKeyTok_of_take19 {k : List Char} (h : ∃ c ∈ k.take 19, isDigitC c = false) :
    filterKeyTok k := by
  constructor
  · obtain ⟨c, hmem, hc⟩ := h
    exact dropWhile_ne_nil_of_exists isDigitC k ⟨c, List.take_subset 19 k hmem, hc⟩
  · have h1 : (k.takeWhile isDigitC).length < 19 := takeWhile_length_lt isDigitC k 19 h
    have h2 := digitsValFrom_bound (k.takeWhile isDigitC) 0 (takeWhile_all isDigitC k)
    have h3 : (10 : Nat) ^ (k.takeWhile isDigitC).length ≤ 10 ^ 18 :=
      Nat.pow_le_pow_right (by norm_num) (by omega)
    have h4 : (10 : Nat) ^ 18 < 2 ^ 64 := by norm_num
    have : digitsVal (k.takeWhile isDigitC) = digitsValFrom 0 (k.takeWhile isDigitC) := rfl
    rw [sizeTMod] at *
    omega

/-- C2 (counterexample): `[key]` with no `=` is not always an
`InvalidToken` syntax error, and `[key=]` is not always the key-exists
filter: for the well-formed key token `99999999999999999999x`, `AsIndex`
detects the wrap of its 20-digit run and records `InvalidIndex` before
reaching the non-digit, so `[99999999999999999999x]` fails with
`InvalidIndex` (not `InvalidToken`) and `[99999999999999999999x=]` fails
the same way instead of parsing as a filter. -/
theorem C2_counterexample :
    PathValidate ('[' :: ("99999999999999999999x".toList ++ [']'])) = .invalidIndex ∧
    EPathError.invalidIndex ≠ EPathError.invalidToken ∧
    PathValidate ('[' :: ("99999999999999999999x".toList ++ ['=', ']'])) =
      .invalidIndex ∧
    (pathValidateRun ('[' :: ("99999999999999999999x".toList ++ [']']))).curException =
      some ⟨.invalidIndex, 22, "99999999999999999999x".toList⟩ :=
  ⟨rfl, by decide, rfl, rfl⟩

/-- C2 (amended): `SeqMapFilter` semantics: on a sequence, the result keeps exactly
the elements matched by `SeqMapFilterMatchElement`, and an element
matches `key=value` iff it is a map whose `key` entry is a scalar equal
to `value` (with `[key=]`, any scalar value); an empty filter result is
`NodeNotFound`; a non-sequence non-map node is `InvalidNodeType`.  On the
syntax side, for keys whose leading digit run does not fire the
`AsIndex` wrap test (in particular any key with a non-digit among its
first 19 characters), `[key]` without `=` is rejected with
`InvalidToken` and `[key=]` parses to the value-less filter selector —
but when the wrap test fires on the key's digit run, both `[key]` and
`[key=]` fail with `InvalidIndex` instead.  A whole path `[k=v]` against
a sequence resolves by the filter rule. -/
theorem C2_filter_semantics :
    (∀ (xs : List Node) (k : List Char) (v : Option (List Char)),
      SeqMapFilter (.seq xs) k v =
        (let kept := xs.filter fun el => SeqMapFilterMatchElement el k v
         if kept.isEmpty then (.nodeNotFound, .seq xs) else (.none, .seq kept))) ∧
    (∀ (el : Node) (k v : List Char),
      SeqMapFilterMatchElement el k (some v) = true ↔
        ∃ entries s, el = .map entries ∧ lookupEntries entries k = .scalar s ∧ s = v) ∧
    (∀ (el : Node) (k : List Char),
      SeqMapFilterMatchElement el k Option.none = true ↔
        ∃ entries s, el = .map entries ∧ lookupEntries entries k = .scalar s) ∧
    (∀ k : List Char, goodKey k = true → (∃ c ∈ k.take 19, isDigitC c = false) →
      PathValidate ('[' :: (k ++ [']'])) = .invalidToken) ∧
    (∀ k : List Char, goodKey k = true → (∃ c ∈ k.take 19, isDigitC c = false) →
      (NextSelector (initScanner ('[' :: (k ++ ['=', ']'])))).1 = .seqMapFilter ∧
      (NextSelector (initScanner ('[' :: (k ++ ['=', ']'])))).2.selectorData =
        .argSeqMapFilter k Option.none ∧
      (NextSelector (initScanner ('[' :: (k ++ ['=', ']'])))).2.curException =
        Option.none) ∧
    (∀ (n : Node) (k : List Char) (v : Option (List Char)), n.isSequence = false →
      n.isMap = false → SeqMapFilter n k v = (.invalidNodeType, n)) ∧
    (∀ (k v : List Char) (xs : List Node), goodKey k = true →
      (∃ c ∈ k.take 19, isDigitC c = false) → goodKey v = true →
      PathResolve (.seq xs) ('[' :: (k ++ '=' :: (v ++ [']']))) =
        (let kept := xs.filter fun el => SeqMapFilterMatchElement el k (some v)
         if kept.isEmpty then
           (.nodeNotFound, .seq xs, '[' :: (k ++ '=' :: (v ++ [']'])))
         else (.none, .seq kept, []))) ∧
    (∀ k : List Char, goodKey k = true → asIndexGo k 0 = .overflowed →
      PathValidate ('[' :: (k ++ [']'])) = .invalidIndex) ∧
    (∀ k : List Char, goodKey k = true → asIndexGo k 0 = .overflowed →
      PathValidate ('[' :: (k ++ ['=', ']'])) = .invalidIndex) := by
  refine ⟨?_, ?_, ?_, ?_, ?_, ?_, ?_, ?_, ?_⟩
  · exact SeqMapFilter_seq_eq
  · intro el k v
    cases el with
    | map entries =>
      cases hv : lookupEntries entries k with
      | scalar s =>
        constructor
        · intro h
          refine ⟨entries, s, rfl, hv, ?_⟩
          simp only [SeqMapFilterMatchElement, hv, Node.isDefined, Node.isScalar,
            prelim_node_eq, Node.asString, Bool.not_true, Bool.or_self,
            Bool.false_eq_true, if_false, Bool.and_eq_true, beq_iff_eq] at h
          exact h.2
        · rintro ⟨entries2, s2, heq, hlook, rfl⟩
          cases heq
          rw [hv] at hlook
          cases hlook
          simp [SeqMapFilterMatchElement, hv, Node.isDefined, Node.isScalar,
            prelim_node_eq, Node.asString]
      | undefined => simp [SeqMapFilterMatchElement, hv, Node.isDefined]
      | null => simp [SeqMapFilterMatchElement, hv, Node.isDefined, Node.isScalar]
      | seq xs2 => simp [SeqMapFilterMatchElement, hv, Node.isDefined, Node.isScalar]
      | map m2 => simp [SeqMapFilterMatchElement, hv, Node.isDefined, Node.isScalar]
    | undefined => simp [SeqMapFilterMatchElement]
    | null => simp [SeqMapFilterMatchElement]
    | scalar s => simp [SeqMapFilterMatchElement]
    | seq xs => simp [SeqMapFilterMatchElement]
  · intro el k
    cases el with
    | map entries =>
      cases hv : lookupEntries entries k with
      | scalar s =>
        constructor
        · intro _
          exact ⟨entries, s, rfl, hv⟩
        · intro _
          simp [SeqMapFilterMatchElement, hv, Node.isDefined, Node.isScalar]
      | undefined => simp [SeqMapFilterMatchElement, hv, Node.isDefined]
      | null => simp [SeqMapFilterMatchElement, hv, Node.isDefined, Node.isScalar]
      | seq xs2 => simp [SeqMapFilterMatchElement, hv, Node.isDefined, Node.isScalar]
      | map m2 => simp [SeqMapFilterMatchElement, hv, Node.isDefined, Node.isScalar]
    | undefined => simp [SeqMapFilterMatchElement]
    | null => simp [SeqMapFilterMatchElement]
    | scalar s => simp [SeqMapFilterMatchElement]
    | seq xs => simp [SeqMapFilterMatchElement]
  · intro k hk h19
    have hf := filterKeyTok_of_take19 h19
    have hns := NextSelector_bracketKey_noEq ('[' :: (k ++ [']'])) ⟨.none, []⟩ .none
      .argNull false 0 k [] hk hf (by simp [headNot])
    have hinit := initScanner_noWS ('[' :: (k ++ [']'])) (by simp [headNot]; decide)
    simp only [PathValidate, pathValidateRun]
    rw [hinit, pathValidateLoop_succ _ _ (by simp [scanBool]), hns]
    rw [pathValidateLoop_exit _ _ (by simp [scanBool])]
  · intro k hk h19
    have hf := filterKeyTok_of_take19 h19
    have hns := NextSelector_filterNoValue ('[' :: (k ++ ['=', ']'])) ⟨.none, []⟩ .none
      .argNull false 0 k [] hk hf (by simp [headNot])
    have hinit := initScanner_noWS ('[' :: (k ++ ['=', ']'])) (by simp [headNot]; decide)
    rw [hinit, hns]
    exact ⟨rfl, rfl, rfl⟩
  · intro n k v h1 h2
    cases n <;> simp_all [SeqMapFilter, Node.isSequence, Node.isMap]
  · intro k v xs hk h19 hv
    have hf := filterKeyTok_of_take19 h19
    have hns := NextSelector_filterValue ('[' :: (k ++ '=' :: (v ++ [']'])))
      ⟨.none, []⟩ .none .argNull false 0 k v [] hk hf hv (by simp [headNot])
    have hinit := initScanner_noWS ('[' :: (k ++ '=' :: (v ++ [']'])))
      (by simp [headNot]; decide)
    obtain ⟨m, hm1, hm2⟩ : ∃ m, ('[' :: (k ++ '=' :: (v ++ [']']))).length + 1 = m + 1 ∧
        1 ≤ m := ⟨('[' :: (k ++ '=' :: (v ++ [']']))).length, rfl, by simp⟩
    rw [PathResolve, hinit, hm1]
    simp only [pathResolveLoop]
    rw [if_pos (show scanBool ⟨'[' :: (k ++ '=' :: (v ++ [']'])),
      '[' :: (k ++ '=' :: (v ++ [']'])), ⟨.none, []⟩, .none, .argNull, false, false,
      false, Option.none, 0⟩ = true from by simp [scanBool])]
    rw [if_neg (show ¬((!(Node.seq xs).isDefined) = true) from by
      simp [Node.isDefined])]
    rw [hns]
    have hsf := SeqMapFilter_seq_eq xs k (some v)
    cases hc : (xs.filter fun el => SeqMapFilterMatchElement el k (some v)).isEmpty with
    | true =>
      simp only [hc, if_true] at hsf
      simp only [argFilterOf, hsf, hc, if_true]
    | false =>
      simp only [hc, Bool.false_eq_true, if_false] at hsf
      simp only [argFilterOf, hsf, hc, Bool.false_eq_true, if_false]
      obtain ⟨m', rfl⟩ : ∃ m', m = m' + 1 := ⟨m - 1, by omega⟩
      exact pathResolveLoop_exit _ _ _ _ (by simp [scanBool])
  · intro k hk hov
    have hns := NextSelector_bracketKey_overflow ('[' :: (k ++ [']'])) ⟨.none, []⟩ .none
      .argNull false 0 k [']'] hk hov (by simp [headNot]; decide)
      (by simp [headNot]; decide)
    have hinit := initScanner_noWS ('[' :: (k ++ [']'])) (by simp [headNot]; decide)
    simp only [PathValidate, pathValidateRun]
    rw [hinit, pathValidateLoop_succ _ _ (by simp [scanBool]), hns]
    rw [pathValidateLoop_exit _ _ (by simp [scanBool])]
  · intro k hk hov
    have hns := NextSelector_bracketKey_overflow ('[' :: (k ++ ['=', ']'])) ⟨.none, []⟩
      .none .argNull false 0 k ['=', ']'] hk hov (by simp [headNot]; decide)
      (by simp [headNot]; decide)
    have hinit := initScanner_noWS ('[' :: (k ++ ['=', ']'])) (by simp [headNot]; decide)
    simp only [PathValidate, pathValidateRun]
    rw [hinit, pathValidateLoop_succ _ _ (by simp [scanBool]), hns]
    rw [pathValidateLoop_exit _ _ (by simp [scanBool])]

theorem C2_filter_semantics_witness :
    (PathValidate ('[' :: ("key".toList ++ [']'])) = .invalidToken) ∧
    ((NextSelector (initScanner ('[' :: ("key".toList ++ ['=', ']'])))).2.selectorData =
      .argSeqMapFilter "key".toList Option.none) ∧
    (PathResolve (.seq [.map [("key".toList, .scalar ['1'])], .null])
        ('[' :: ("key".toList ++ '=' :: (['1'] ++ [']']))) =
      (let kept := [Node.map [("key".toList, .scalar ['1'])], Node.null].filter
        fun el => SeqMapFilterMatchElement el "key".toList (some ['1'])
       if kept.isEmpty then
         (.nodeNotFound, Node.seq [.map [("key".toList, .scalar ['1'])], .null],
           '[' :: ("key".toList ++ '=' :: (['1'] ++ [']'])))
       else (.none, .seq kept, []))) ∧
    (PathValidate ('[' :: ("99999999999999999999x".toList ++ [']'])) = .invalidIndex) ∧
    (PathValidate ('[' :: ("99999999999999999999x".toList ++ ['=', ']'])) =
      .invalidIndex) :=
  ⟨C2_filter_semantics.2.2.2.1 "key".toList (by decide) (by decide),
   (C2_filter_semantics.2.2.2.2.1 "key".toList (by decide) (by decide)).2.1,
   C2_filter_semantics.2.2.2.2.2.2.1 "key".toList ['1']
     [.map [("key".toList, .scalar ['1'])], .null] (by decide) (by decide) (by decide),
   C2_filter_semantics.2.2.2.2.2.2.2.1 "99999999999999999999x".toList (by decide) rfl,
   C2_filter_semantics.2.2.2.2.2.2.2.2 "99999999999999999999x".toList (by decide) rfl⟩

/-- C4: the `Key` selector: on a sequence it collects, for each element
that is a map and has the key, that key's value into a new sequence
(`NodeNotFound` when nothing is collected); on a map it looks the key up
directly, the match test sending undefined, null and empty containers to
`NodeNotFound`; on any other shape it is `InvalidNodeType`, and
`IsMatch` fails exactly on undefined, null, and empty sequences/maps.
Consequently a pure dotted-keys path resolved against a map-of-maps tree
whose lookups all match equals the manual sequential key lookups. -/
theorem C4_key_selector :
    (∀ (xs : List Node) (k : List Char),
      SeqMapByKey (.seq xs) k =
        (let collected := xs.filterMap fun el =>
          match el with
          | .map entries =>
            if (lookupEntries entries k).isDefined then some (lookupEntries entries k)
            else Option.none
          | _ => Option.none
         if collected.isEmpty then (.nodeNotFound, .seq xs)
         else (.none, .seq collected))) ∧
    (∀ (entries : List (List Char × Node)) (k : List Char),
      SeqMapByKey (.map entries) k =
        if IsMatch (lookupEntries entries k) then (.none, lookupEntries entries k)
        else (.nodeNotFound, .map entries)) ∧
    (∀ (n : Node) (k : List Char), n.isSequence = false → n.isMap = false →
      SeqMapByKey n k = (.invalidNodeType, n)) ∧
    (∀ v : Node, IsMatch v = false ↔
      (v = .undefined ∨ v = .null ∨ v = .seq [] ∨ v = .map [])) ∧
    (∀ (ks : List (List Char)) (n : Node), goodKeys ks = true → chainOK n ks = true →
      PathResolve n (dotted ks) = (.none, chainNode n ks, [])) := by
  refine ⟨?_, ?_, ?_, ?_, ?_⟩
  · intro xs k
    show SeqMapByKey (.seq xs) k =
      (if (seqCollect xs k).isEmpty then (.nodeNotFound, .seq xs)
       else (.none, .seq (seqCollect xs k)))
    cases hc : (seqCollect xs k).isEmpty with
    | true => simp [SeqMapByKey, hc, IsMatch, Node.isDefined, Node.isNull]
    | false =>
      have hmt : IsMatch (Node.seq (seqCollect xs k)) = true := by
        cases hsc : seqCollect xs k with
        | nil => rw [hsc] at hc; simp at hc
        | cons a l =>
          simp [IsMatch, Node.isDefined, Node.isNull, Node.isSequence, Node.isMap,
            Node.size]
      simp [SeqMapByKey, hc, hmt]
  · intro entries k
    by_cases hm : IsMatch (lookupEntries entries k) <;> simp [SeqMapByKey, hm]
  · intro n k h1 h2
    cases n <;> simp_all [SeqMapByKey, Node.isSequence, Node.isMap]
  · intro v
    cases v with
    | seq xs =>
      cases xs <;> simp [IsMatch, Node.isDefined, Node.isNull, Node.isSequence,
        Node.isMap, Node.size]
    | map entries =>
      cases entries <;> simp [IsMatch, Node.isDefined, Node.isNull, Node.isSequence,
        Node.isMap, Node.size]
    | _ => simp [IsMatch, Node.isDefined, Node.isNull, Node.isSequence, Node.isMap]
  · intro ks n hgk hco
    cases ks with
    | nil =>
      rw [show dotted [] = [] from rfl, PathResolve]
      exact pathResolveLoop_exit _ _ _ _ (by simp [scanBool, initScanner, SkipWS])
    | cons k ks =>
      simp only [goodKeys, List.all_cons, Bool.and_eq_true] at hgk
      simp only [chainOK, Bool.and_eq_true] at hco
      have hdef : n.isDefined = true := by
        cases n <;> simp_all [Node.isMap, Node.isDefined]
      have hinit := initScanner_noWS (dotted (k :: ks))
        (by rw [show dotted (k :: ks) = k ++ dottedTail ks from rfl];
            exact goodKey_headNot_ws hgk.1 _)
      have hklen : 1 ≤ k.length := by
        have hg := hgk.1
        cases k with
        | nil => simp [goodKey] at hg
        | cons a l => simp
      have hlen : (dotted (k :: ks)).length = k.length + (dottedTail ks).length := by
        simp [dotted]
      obtain ⟨f, hf, hfge⟩ : ∃ f, (dotted (k :: ks)).length + 1 = f + 1 ∧
          (dottedTail ks).length + 1 ≤ f :=
        ⟨(dotted (k :: ks)).length, rfl, by omega⟩
      rw [PathResolve, hinit, hf]
      have hns := NextSelector_key_start (dotted (k :: ks)) ⟨.none, []⟩ .none .argNull
        false 0 k (dottedTail ks) hgk.1 (headNot_dottedTail_ident ks)
        (headNot_dottedTail_ws ks)
      rw [show dotted (k :: ks) = k ++ dottedTail ks from rfl] at hns ⊢
      simp only [pathResolveLoop]
      rw [if_pos (show scanBool ⟨k ++ dottedTail ks, k ++ dottedTail ks, ⟨.none, []⟩,
        .none, .argNull, false, false, false, Option.none, 0⟩ = true from by
          cases k with
          | nil => simp [goodKey] at hgk
          | cons a l => simp [scanBool])]
      rw [if_neg (show ¬((!n.isDefined) = true) from by simp [hdef])]
      rw [hns]
      have happ := SeqMapByKey_map_match n k hco.1.1 hco.1.2
      simp only [argKeyOf, happ]
      rw [show chainNode n (k :: ks) = chainNode (lookupKey n k) ks from rfl]
      exact resolveDotted_aux ks (lookupKey n k) _ ⟨.unquotedIdentifier, k⟩ .key
        (.argKey k) false _ f _ hgk.2 hco.2 (IsMatch_defined hco.1.2) (by simp) hfge

theorem C4_key_selector_witness :
    PathResolve (.map [(['a'], .map [(['b'], .scalar ['1'])])]) (dotted [['a'], ['b']]) =
      (.none, chainNode (.map [(['a'], .map [(['b'], .scalar ['1'])])]) [['a'], ['b']],
        []) :=
  C4_key_selector.2.2.2.2 [['a'], ['b']] (.map [(['a'], .map [(['b'], .scalar ['1'])])])
    (by decide) (by decide)

/-- C10: per-selector atomicity on error: whenever `SeqMapByKey`,
`SeqMapFilter` or the `Index` step fails, the node handle is returned
unchanged (the code resets the node only after the match test succeeds);
consequently the node `PathResolve` hands back — on error as on success —
is exactly the result of a chain of fully successful selector
applications to the initial node. -/
theorem C10_atomicity :
    (∀ (n : Node) (k : List Char) (e : EPathError) (n2 : Node),
      SeqMapByKey n k = (e, n2) → e ≠ .none → n2 = n) ∧
    (∀ (n : Node) (k : List Char) (v : Option (List Char)) (e : EPathError) (n2 : Node),
      SeqMapFilter n k v = (e, n2) → e ≠ .none → n2 = n) ∧
    (∀ (n : Node) (i : Nat) (e : EPathError) (n2 : Node),
      resolveIndexStep n i = (e, n2) → e ≠ .none → n2 = n) ∧
    (∀ (p : List Char) (n : Node) (e : EPathError) (n2 : Node) (r : List Char),
      PathResolve n p = (e, n2, r) → ∃ σ, applySteps n σ = some n2) := by
  refine ⟨SeqMapByKey_atomic, SeqMapFilter_atomic, resolveIndexStep_atomic, ?_⟩
  intro p n e n2 r h
  have hc := pathResolveLoop_chain (p.length + 1) (initScanner p) n p
  rw [PathResolve] at h
  rw [h] at hc
  exact hc

theorem C10_atomicity_witness :
    (Node.map [(['c'], Node.scalar ['1'])] = .map [(['c'], .scalar ['1'])]) ∧
    (∃ σ, applySteps (.map [(['a'], .map [(['c'], .scalar ['1'])])]) σ =
      some (.map [(['c'], .scalar ['1'])])) :=
  ⟨C10_atomicity.1 (.map [(['c'], .scalar ['1'])]) ['b'] .nodeNotFound
      (.map [(['c'], .scalar ['1'])]) rfl (by decide),
   C10_atomicity.2.2.2 ('a' :: '.' :: ['b']) (.map [(['a'], .map [(['c'], .scalar ['1'])])])
      .nodeNotFound (.map [(['c'], .scalar ['1'])]) ('.' :: ['b']) rfl⟩

/-- C5: the `Index` selector: on a scalar node index 0 is a no-op and any
positive index is `NodeNotFound`; on a sequence, an in-range index
narrows to that element and an out-of-range one is `NodeNotFound`; every
other shape is `InvalidNodeType`.  Moreover a whole path `[ds]` (digits
`ds`, value below `2 ^ 64`) resolves exactly by that rule: on success the
path is consumed, on failure the node and the whole path are returned
with the error. -/
theorem C5_index_selector :
    (∀ (n : Node) (i : Nat),
      (∀ s, n = .scalar s →
        resolveIndexStep n i = if i = 0 then (.none, n) else (.nodeNotFound, n)) ∧
      (∀ xs, n = .seq xs →
        resolveIndexStep n i =
          if i < xs.length then (.none, xs.getD i .undefined) else (.nodeNotFound, n)) ∧
      (n.isScalar = false → n.isSequence = false →
        resolveIndexStep n i = (.invalidNodeType, n))) ∧
    (∀ (ds : List Char) (n : Node), ds ≠ [] → ds.all isDigitC = true →
      digitsVal ds < 2 ^ 64 → n.isDefined = true →
      PathResolve n ('[' :: (ds ++ [']'])) =
        match resolveIndexStep n (digitsVal ds) with
        | (.none, n2) => (EPathError.none, n2, ([] : List Char))
        | (e, n2) => (e, n2, '[' :: (ds ++ [']']))) := by
  constructor
  · intro n i
    refine ⟨?_, ?_, ?_⟩
    · rintro s rfl
      by_cases hi : i = 0 <;> simp [resolveIndexStep, Node.isScalar, hi]
    · rintro xs rfl
      by_cases hi : i < xs.length <;>
        simp [resolveIndexStep, Node.isScalar, Node.isSequence, Node.size, Node.seqGet,
          Nat.not_lt.mpr, hi]
    · intro h1 h2
      simp [resolveIndexStep, h1, h2]
  · intro ds n hne hd hval hdef
    have hns := NextSelector_index_start ('[' :: (ds ++ [']'])) ⟨.none, []⟩ .none
      .argNull false 0 ds [] hne hd hval (by simp [headNot])
    have hinit := initScanner_noWS ('[' :: (ds ++ [']'])) (by simp [headNot]; decide)
    obtain ⟨m, hm1, hm2⟩ : ∃ m, ('[' :: (ds ++ [']'])).length + 1 = m + 1 ∧ 1 ≤ m :=
      ⟨ds.length + 2, by simp, by omega⟩
    rw [PathResolve, hinit, hm1]
    simp only [pathResolveLoop]
    rw [if_pos (show scanBool ⟨'[' :: (ds ++ [']']), '[' :: (ds ++ [']']), ⟨.none, []⟩,
      .none, .argNull, false, false, false, Option.none, 0⟩ = true from rfl)]
    rw [if_neg (show ¬((!n.isDefined) = true) from by simp [hdef])]
    rw [hns]
    rcases hri : resolveIndexStep n (digitsVal ds) with ⟨e, n2⟩
    cases e <;> simp only [argIndexOf, hri]
    case none =>
      obtain ⟨m', rfl⟩ : ∃ m', m = m' + 1 := ⟨m - 1, by omega⟩
      exact pathResolveLoop_exit _ _ _ _ (by simp [scanBool])

theorem C5_index_selector_witness :
    PathResolve (.seq [.scalar ['a'], .scalar ['b']]) ('[' :: (['1'] ++ [']'])) =
      match resolveIndexStep (.seq [.scalar ['a'], .scalar ['b']]) (digitsVal ['1']) with
      | (.none, n2) => (EPathError.none, n2, ([] : List Char))
      | (e, n2) => (e, n2, '[' :: (['1'] ++ [']'])) :=
  C5_index_selector.2 ['1'] (.seq [.scalar ['a'], .scalar ['b']]) (by decide)
    (by decide) (by decide) rfl

end YamlPath
